import Mathlib

/-!
Shallow embedding of the OpenCoffee pair-generation subsystem
(`opencoffee/pair_generator_algorithms/`) and proofs about its
behaviour.

Modelling conventions:

* A member identifier (`Member`) is a `String`, exactly as in the source.
* The group-communication service (`GenericMessagingApiWrapper`) is an
  arbitrary behaviour: each operation returns `Except
  GroupwareCommunicationError _`.  The recent-exchange check is indexed
  by the number of eligibility checks already performed in the run, so
  a single value of the structure can describe any sequence of remote
  answers.
* `random.choice` is modelled by an arbitrary stream `rand : Nat → Nat`
  of which the strategy consumes one value per draw, reduced modulo the
  length of the list drawn from; `random.shuffle` is modelled by an
  arbitrary function `shuffle`, about which theorems assume only that it
  permutes its input.
* `sys.exit(-1)` executed after catching a `GroupwareCommunicationError`
  is modelled as terminating the whole computation with that error as
  its fatal outcome (`Except.error`).
* The runs additionally thread a ghost `trace` recording, in order, the
  pairs submitted to the recent-exchange check.  It is write-only
  instrumentation: the algorithm never reads it except to index the
  service behaviour by `trace.length` (the number of checks performed
  so far).
* The `lil_matrix((n, n), dtype = 'uint16')` sparse matrix is a total
  function `Nat × Nat → Nat` whose cells are updated modulo `2 ^ 16`,
  matching the wrap-around of unsigned 16-bit counters.
-/

abbrev Member := String

abbrev MPair := Member × Member

/-- Remote-communication failure (`GroupwareCommunicationError` in
`opencoffee/errors/__init__.py`), carrying a message. -/
structure GroupwareCommunicationError where
  msg : String
deriving Repr, DecidableEq

/-- Behaviour of the group-communication service consumed by the
strategies (`GenericMessagingApiWrapper`).  The recent-exchange check
takes the index of the call (number of eligibility checks already
performed during the run) so that arbitrary per-call behaviours can be
described.  `backtrack_days` is forwarded verbatim by the strategies and
has no influence on their control flow, so it is folded into the
behaviour function. -/
structure GenericMessagingApiWrapper where
  get_public_channel_ids : Except GroupwareCommunicationError (List String)
  get_users_from_channel : String → Except GroupwareCommunicationError (List Member)
  exist_recent_message_exchange_in_pairs :
    Nat → MPair → Except GroupwareCommunicationError Bool

/-- Model of `random.choice(l)`: the stream `rand` supplies an arbitrary
natural number, reduced modulo the length of `l`.  On the empty list
(never reached in actual runs) it returns `""`. -/
def choice (rand : Nat → Nat) (rk : Nat) (l : List Member) : Member :=
  l.getD (rand rk % l.length) ""

/-- Lexicographic order on member identifiers, expressed on the
underlying character lists (`String.lt_iff_toList_lt` proves this is the
same order as `String.lt`); Python compares strings the same way. -/
def memLe (a b : Member) : Prop := a.toList ≤ b.toList

instance : DecidableRel memLe := fun a b =>
  inferInstanceAs (Decidable (a.toList ≤ b.toList))

instance : IsTrans Member memLe := ⟨fun _ _ _ => le_trans⟩

instance : IsTotal Member memLe := ⟨fun a b => le_total a.toList b.toList⟩

/-- Model of `list.sort()` / `sorted(...)` on strings: a stable sort by
the lexicographic order (Python's sort is stable; any two stable sorts
by the same order agree). -/
def sortList (l : List Member) : List Member :=
  l.insertionSort memLe

namespace SimpleGeneratorAlgorithm

/-- Outcome of the retry loop of
`SimpleGeneratorAlgorithm.compute_pairs_from_users` (lines 39-49): the
last candidate drawn, the last answer of the recent-exchange check, the
final value of `retry`, and the ghost random-stream position and check
trace. -/
structure RetryOut where
  target : Member
  exist : Bool
  retry : Nat
  rk : Nat
  trace : List MPair
deriving Repr, DecidableEq

/-- The inner retry loop of the Simple strategy:
`while exist_recent_message is True and retry < backtrack_max_attempts:`
redraws `target_user = random.choice(users)` (the list `users` is not
mutated by the loop), increments `retry` and repeats the check. -/
def retryLoop (svc : GenericMessagingApiWrapper) (rand : Nat → Nat)
    (maxAttempts : Nat) (current : Member) (users : List Member)
    (target : Member) (ex : Bool) (retry rk : Nat) (tr : List MPair) :
    Except GroupwareCommunicationError RetryOut :=
  if h : ex = true ∧ retry < maxAttempts then
    let t := choice rand rk users
    match svc.exist_recent_message_exchange_in_pairs tr.length (current, t) with
    | .error e => .error e
    | .ok ex2 =>
        retryLoop svc rand maxAttempts current users t ex2 (retry + 1) (rk + 1)
          (tr ++ [(current, t)])
  else
    .ok ⟨target, ex, retry, rk, tr⟩
termination_by maxAttempts - retry
decreasing_by omega

/-- Result of a full run of the Simple strategy: the accumulated
`_pairs` and `_ignored` fields, the final state of the caller's `users`
list, and the ghost trace/random position. -/
structure SimpleResult where
  pairs : List MPair
  ignored : List Member
  users : List Member
  trace : List MPair
  rk : Nat
deriving Repr, DecidableEq

/-- The main loop of `SimpleGeneratorAlgorithm.compute_pairs_from_users`
(lines 24-77): `while len(users) > 1`, pop the first member, draw a
random target, check, retry on failure; afterwards
`self._ignored.extend(users)` appends the leftover member (if any). -/
def loop (svc : GenericMessagingApiWrapper) (rand : Nat → Nat)
    (maxAttempts : Nat) (users : List Member) (pairs : List MPair)
    (ignored : List Member) (rk : Nat) (tr : List MPair) :
    Except GroupwareCommunicationError SimpleResult :=
  if h : 1 < users.length then
    let current := users.headD ""
    let rest := users.tail
    let target := choice rand rk rest
    match svc.exist_recent_message_exchange_in_pairs tr.length (current, target) with
    | .error e => .error e
    | .ok ex =>
        match retryLoop svc rand maxAttempts current rest target ex 0 (rk + 1)
            (tr ++ [(current, target)]) with
        | .error e => .error e
        | .ok r =>
            if r.exist then
              loop svc rand maxAttempts rest pairs (ignored ++ [current]) r.rk r.trace
            else
              loop svc rand maxAttempts (rest.erase r.target)
                (pairs ++ [(current, r.target)]) ignored r.rk r.trace
  else
    .ok ⟨pairs, ignored ++ users, users, tr, rk⟩
termination_by users.length
decreasing_by
  · have ht : users.tail.length = users.length - 1 := List.length_tail users
    omega
  · have he : (users.tail.erase r.target).length ≤ users.tail.length :=
      (List.erase_sublist _ _).length_le
    have ht : users.tail.length = users.length - 1 := List.length_tail users
    omega

/-- Entry point `SimpleGeneratorAlgorithm.compute_pairs_from_users`:
shuffles the caller's list in place, then runs the pairing loop,
appending to the instance accumulators `pairs`/`ignored`. -/
def compute_pairs_from_users (svc : GenericMessagingApiWrapper)
    (shuffle : List Member → List Member) (rand : Nat → Nat)
    (maxAttempts : Nat) (users : List Member) (pairs : List MPair)
    (ignored : List Member) :
    Except GroupwareCommunicationError SimpleResult :=
  loop svc rand maxAttempts (shuffle users) pairs ignored 0 []

end SimpleGeneratorAlgorithm

namespace MaxDistanceGeneratorAlgorithm

/-- A distance matrix cell holds an unsigned 16-bit counter; the matrix
itself is total over index pairs (`lil_matrix((n, n), dtype='uint16')`
defaults every cell to 0). -/
def DistMatrix := Nat × Nat → Nat

/-- Canonical matrix coordinates for an unordered pair of users
(`_get_sparse_matrix_index`, lines 234-251): swap the arguments into
lexicographic order, then take their positions in the sorted roster. -/
def get_sparse_matrix_index (users : List Member) (u1 u2 : Member) : Nat × Nat :=
  if u2.toList < u1.toList then (List.indexOf u2 users, List.indexOf u1 users)
  else (List.indexOf u1 users, List.indexOf u2 users)

/-- Increment of one matrix cell (`u_distance_matrix[indexes] += 1`),
wrapping at `2 ^ 16` like the `uint16` storage. -/
def matrixIncr (m : DistMatrix) (idx : Nat × Nat) : DistMatrix :=
  fun p => if p = idx then (m idx + 1) % 65536 else m p

/-- All position-ordered pairs of a list, in the order produced by
`itertools.combinations(users, 2)`. -/
def combinations2 : List Member → List MPair
  | [] => []
  | x :: xs => xs.map (fun y => (x, y)) ++ combinations2 xs

/-- Contribution of one channel to the distance matrix (lines 113-121):
for every combination of roster users both present in the channel's
member list, increment the pair's cell. -/
def add_channel (users chUsers : List Member) (m : DistMatrix) : DistMatrix :=
  (combinations2 users).foldl
    (fun acc p =>
      if p.1 ∈ chUsers ∧ p.2 ∈ chUsers then
        matrixIncr acc (get_sparse_matrix_index users p.1 p.2)
      else acc)
    m

/-- The channel scan of `_build_distance_matrix`: for each channel id,
fetch the member list (a `GroupwareCommunicationError` aborts the whole
build), sort it, and fold its contribution into the matrix. -/
def build_channels (svc : GenericMessagingApiWrapper) (users : List Member) :
    List String → DistMatrix → Except GroupwareCommunicationError DistMatrix
  | [], m => .ok m
  | ch :: rest, m =>
      match svc.get_users_from_channel ch with
      | .error e => .error e
      | .ok chUsers => build_channels svc users rest (add_channel users (sortList chUsers) m)

/-- `_build_distance_matrix` (lines 95-124): list the public channels,
then scan them; any service failure propagates and no partial matrix is
returned. -/
def build_distance_matrix (svc : GenericMessagingApiWrapper) (users : List Member) :
    Except GroupwareCommunicationError DistMatrix :=
  match svc.get_public_channel_ids with
  | .error e => .error e
  | .ok chs => build_channels svc users chs (fun _ => 0)

/-- Insertion into the distance dictionary: mirrors
`if distance not in distance_dict: distance_dict[distance] = []` followed
by `distance_dict[distance].append(test_user)`, preserving key insertion
order. -/
def addToBucket : List (Nat × List Member) → Nat → Member → List (Nat × List Member)
  | [], k, v => [(k, [v])]
  | (k', vs) :: rest, k, v =>
      if k' = k then (k', vs ++ [v]) :: rest
      else (k', vs) :: addToBucket rest k v

/-- One step of the dictionary-building scan over the sorted roster:
members no longer in the working set, and the current member itself,
are skipped; everyone else is appended to the bucket of its matrix
distance to the current member. -/
def dict_insert (users working : List Member) (current : Member) (m : DistMatrix)
    (d : List (Nat × List Member)) (test : Member) : List (Nat × List Member) :=
  if test ∉ working ∨ test = current then d
  else addToBucket d (m (get_sparse_matrix_index users current test)) test

/-- `_build_user_distance_dict` (lines 149-171): bucket the members of
the working set (other than the current user) by their matrix distance
to the current user, then rebuild the dictionary with its keys sorted
ascending. -/
def build_user_distance_dict (users working : List Member) (current : Member)
    (m : DistMatrix) : List (Nat × List Member) :=
  (users.foldl (dict_insert users working current m) []).insertionSort
    (fun a b => a.1 ≤ b.1)

/-- State of the inner `while` of `_search_pair_for_user` when it
exits: last candidate drawn, last check answer, what remains of the
bucket, the global `retry` counter, and the ghost random position and
check trace. -/
structure InnerOut where
  cand : Member
  exist : Bool
  bucket : List Member
  retry : Nat
  rk : Nat
  trace : List MPair
deriving Repr, DecidableEq

/-- The inner `while` of `_search_pair_for_user` (lines 216-228):
`while exist_recent_message is True and retry < max_retries and
len(users_same_distance) != 0`, draw and remove another random candidate
from the bucket, increment `retry` and repeat the check. -/
def search_inner (svc : GenericMessagingApiWrapper) (rand : Nat → Nat)
    (maxRetries : Nat) (current : Member) (bucket : List Member)
    (cand : Member) (ex : Bool) (retry rk : Nat) (tr : List MPair) :
    Except GroupwareCommunicationError InnerOut :=
  if h : ex = true ∧ retry < maxRetries ∧ bucket ≠ [] then
    let c := choice rand rk bucket
    match svc.exist_recent_message_exchange_in_pairs tr.length (current, c) with
    | .error e => .error e
    | .ok ex2 =>
        search_inner svc rand maxRetries current (bucket.erase c) c ex2
          (retry + 1) (rk + 1) (tr ++ [(current, c)])
  else
    .ok ⟨cand, ex, bucket, retry, rk, tr⟩
termination_by bucket.length
decreasing_by
  have hc : choice rand rk bucket ∈ bucket := by
    unfold choice
    have hl : 0 < bucket.length := List.length_pos.mpr h.2.2
    have hlt : rand rk % bucket.length < bucket.length := Nat.mod_lt _ hl
    rw [List.getD_eq_getElem _ _ hlt]
    exact List.getElem_mem hlt
  have := List.length_erase_of_mem hc
  have hl : 0 < bucket.length := List.length_pos.mpr h.2.2
  omega

/-- Outcome of `_search_pair_for_user`: the candidate found (if any),
the final `retry` counter, the final state of the (mutated-in-place)
distance dictionary, and the ghost random position and check trace. -/
structure SearchOut where
  result : Option Member
  retry : Nat
  dict : List (Nat × List Member)
  rk : Nat
  trace : List MPair
deriving Repr, DecidableEq

/-- `_search_pair_for_user` (lines 194-231): walk the buckets of the
distance dictionary in order; in each bucket draw and remove a random
candidate, check it, and retry within the bucket under the single global
`retry` budget; return the first eligible candidate, `None` when the
budget is exhausted, or `None` when every bucket has been consumed. -/
def search_pair_for_user (svc : GenericMessagingApiWrapper) (rand : Nat → Nat)
    (maxRetries : Nat) (current : Member) :
    List (Nat × List Member) → Nat → Nat → List MPair →
    Except GroupwareCommunicationError SearchOut
  | [], retry, rk, tr => .ok ⟨none, retry, [], rk, tr⟩
  | (k, bucket) :: rest, retry, rk, tr =>
      let c := choice rand rk bucket
      let bucket1 := bucket.erase c
      match svc.exist_recent_message_exchange_in_pairs tr.length (current, c) with
      | .error e => .error e
      | .ok ex =>
          match search_inner svc rand maxRetries current bucket1 c ex retry (rk + 1)
              (tr ++ [(current, c)]) with
          | .error e => .error e
          | .ok r =>
              if r.exist = false then
                .ok ⟨some r.cand, r.retry, (k, r.bucket) :: rest, r.rk, r.trace⟩
              else if maxRetries ≤ r.retry then
                .ok ⟨none, r.retry, (k, r.bucket) :: rest, r.rk, r.trace⟩
              else
                match search_pair_for_user svc rand maxRetries current rest r.retry
                    r.rk r.trace with
                | .error e => .error e
                | .ok r2 => .ok ⟨r2.result, r2.retry, (k, r.bucket) :: r2.dict, r2.rk, r2.trace⟩

/-- Result of a full run of the Max-Distance strategy: the accumulated
`_pairs` and `_ignored` fields, the final state of the caller's `users`
list (sorted in place, no element removed), the final working copy, and
the ghost trace/random position. -/
structure MaxDistResult where
  pairs : List MPair
  ignored : List Member
  users : List Member
  working : List Member
  trace : List MPair
  rk : Nat
deriving Repr, DecidableEq

/-- The pairing loop of
`MaxDistanceGeneratorAlgorithm.compute_pairs_from_users` (lines 46-76):
`while len(working_users) > 1`, pop the first member, build its distance
dictionary, search a partner; on success commit the pair and remove the
partner from the working copy, otherwise append the current member to
`_ignored`.  Note that after the loop nothing is appended to
`_ignored`. -/
def mdLoop (svc : GenericMessagingApiWrapper) (rand : Nat → Nat)
    (maxRetries : Nat) (users : List Member) (m : DistMatrix)
    (working : List Member) (pairs : List MPair) (ignored : List Member)
    (rk : Nat) (tr : List MPair) :
    Except GroupwareCommunicationError
      (List MPair × List Member × List Member × Nat × List MPair) :=
  if h : 1 < working.length then
    let current := working.headD ""
    let rest := working.tail
    let dict := build_user_distance_dict users rest current m
    match search_pair_for_user svc rand maxRetries current dict 0 rk tr with
    | .error e => .error e
    | .ok r =>
        match r.result with
        | none =>
            mdLoop svc rand maxRetries users m rest pairs (ignored ++ [current])
              r.rk r.trace
        | some c =>
            mdLoop svc rand maxRetries users m (rest.erase c)
              (pairs ++ [(current, c)]) ignored r.rk r.trace
  else
    .ok (pairs, ignored, working, rk, tr)
termination_by working.length
decreasing_by
  · have ht : working.tail.length = working.length - 1 := List.length_tail working
    omega
  · have he : (working.tail.erase c).length ≤ working.tail.length :=
      (List.erase_sublist _ _).length_le
    have ht : working.tail.length = working.length - 1 := List.length_tail working
    omega

/-- Entry point `MaxDistanceGeneratorAlgorithm.compute_pairs_from_users`
(lines 21-77): sort the caller's list in place, build the distance
matrix (a service failure aborts the run), copy and shuffle the roster
into the working set, then run the pairing loop. -/
def compute_pairs_from_users (svc : GenericMessagingApiWrapper)
    (shuffle : List Member → List Member) (rand : Nat → Nat)
    (maxRetries : Nat) (users : List Member) (pairs : List MPair)
    (ignored : List Member) :
    Except GroupwareCommunicationError MaxDistResult :=
  let sorted := sortList users
  match build_distance_matrix svc sorted with
  | .error e => .error e
  | .ok m =>
      let working := shuffle sorted
      match mdLoop svc rand maxRetries sorted m working pairs ignored 0 [] with
      | .error e => .error e
      | .ok (p, i, w, rk, tr) => .ok ⟨p, i, sorted, w, tr, rk⟩

end MaxDistanceGeneratorAlgorithm

/-! ### Concrete service doubles and randomness used by the witnesses
and counterexamples. -/

/-- Service double with no public channels whose recent-exchange check
always answers "no recent exchange" (every candidate eligible). -/
def alwaysEligibleService : GenericMessagingApiWrapper :=
  ⟨.ok [], fun _ => .ok [], fun _ _ => .ok false⟩

/-- Service double with no public channels whose recent-exchange check
always answers "a recent exchange exists" (every candidate rejected). -/
def alwaysBusyService : GenericMessagingApiWrapper :=
  ⟨.ok [], fun _ => .ok [], fun _ _ => .ok true⟩

/-- Degenerate randomness stream: every draw picks index 0. -/
def rand0 : Nat → Nat := fun _ => 0

/-- Evaluation helper: the Max-Distance strategy on the three-member
roster with the always-eligible service pairs U1 with U2 and leaves U3
in the working copy, in neither accumulator. -/
lemma maxdistRunU123 :
    MaxDistanceGeneratorAlgorithm.compute_pairs_from_users alwaysEligibleService id rand0 3
      ["U1", "U2", "U3"] [] [] =
    .ok ⟨[("U1", "U2")], [], ["U1", "U2", "U3"], ["U3"], [("U1", "U2")], 1⟩ := by
  have hsort : sortList ["U1", "U2", "U3"] = ["U1", "U2", "U3"] := by decide
  have hmat : MaxDistanceGeneratorAlgorithm.build_distance_matrix alwaysEligibleService
      ["U1", "U2", "U3"] = .ok (fun _ => 0) := by
    simp [MaxDistanceGeneratorAlgorithm.build_distance_matrix,
      MaxDistanceGeneratorAlgorithm.build_channels, alwaysEligibleService]
  have hd1 : MaxDistanceGeneratorAlgorithm.build_user_distance_dict ["U1", "U2", "U3"]
      ["U2", "U3"] "U1" (fun _ => 0) = [(0, ["U2", "U3"])] := by decide
  have hs1 : MaxDistanceGeneratorAlgorithm.search_pair_for_user alwaysEligibleService rand0 3
      "U1" [(0, ["U2", "U3"])] 0 0 [] =
      .ok ⟨some "U2", 0, [(0, ["U3"])], 1, [("U1", "U2")]⟩ := by
    simp [MaxDistanceGeneratorAlgorithm.search_pair_for_user,
      MaxDistanceGeneratorAlgorithm.search_inner, choice, alwaysEligibleService, rand0]
  have hloop2 : MaxDistanceGeneratorAlgorithm.mdLoop alwaysEligibleService rand0 3
      ["U1", "U2", "U3"] (fun _ => 0) ["U3"] [("U1", "U2")] [] 1 [("U1", "U2")] =
      .ok ([("U1", "U2")], [], ["U3"], 1, [("U1", "U2")]) := by
    rw [MaxDistanceGeneratorAlgorithm.mdLoop]
    simp
  have hloop1 : MaxDistanceGeneratorAlgorithm.mdLoop alwaysEligibleService rand0 3
      ["U1", "U2", "U3"] (fun _ => 0) ["U1", "U2", "U3"] [] [] 0 [] =
      .ok ([("U1", "U2")], [], ["U3"], 1, [("U1", "U2")]) := by
    rw [MaxDistanceGeneratorAlgorithm.mdLoop]
    simp only [List.length_cons, List.length_nil, List.headD, List.tail, hd1]
    norm_num
    rw [hs1]
    simpa using hloop2
  unfold MaxDistanceGeneratorAlgorithm.compute_pairs_from_users
  rw [hsort]
  simp only [hmat, id_eq, hloop1]

/-- Evaluation helper: the Max-Distance strategy on the two-member
roster with the always-busy service ignores U1 after a single
eligibility check and leaves U2 in the working copy, in neither
accumulator. -/
lemma maxdistRunU12Busy :
    MaxDistanceGeneratorAlgorithm.compute_pairs_from_users alwaysBusyService id rand0 3
      ["U1", "U2"] [] [] =
    .ok ⟨[], ["U1"], ["U1", "U2"], ["U2"], [("U1", "U2")], 1⟩ := by
  have hsort : sortList ["U1", "U2"] = ["U1", "U2"] := by decide
  have hmat : MaxDistanceGeneratorAlgorithm.build_distance_matrix alwaysBusyService
      ["U1", "U2"] = .ok (fun _ => 0) := by
    simp [MaxDistanceGeneratorAlgorithm.build_distance_matrix,
      MaxDistanceGeneratorAlgorithm.build_channels, alwaysBusyService]
  have hd1 : MaxDistanceGeneratorAlgorithm.build_user_distance_dict ["U1", "U2"]
      ["U2"] "U1" (fun _ => 0) = [(0, ["U2"])] := by decide
  have hs1 : MaxDistanceGeneratorAlgorithm.search_pair_for_user alwaysBusyService rand0 3
      "U1" [(0, ["U2"])] 0 0 [] =
      .ok ⟨none, 0, [(0, [])], 1, [("U1", "U2")]⟩ := by
    simp [MaxDistanceGeneratorAlgorithm.search_pair_for_user,
      MaxDistanceGeneratorAlgorithm.search_inner, choice, alwaysBusyService, rand0]
  have hloop2 : MaxDistanceGeneratorAlgorithm.mdLoop alwaysBusyService rand0 3
      ["U1", "U2"] (fun _ => 0) ["U2"] [] ["U1"] 1 [("U1", "U2")] =
      .ok ([], ["U1"], ["U2"], 1, [("U1", "U2")]) := by
    rw [MaxDistanceGeneratorAlgorithm.mdLoop]
    simp
  have hloop1 : MaxDistanceGeneratorAlgorithm.mdLoop alwaysBusyService rand0 3
      ["U1", "U2"] (fun _ => 0) ["U1", "U2"] [] [] 0 [] =
      .ok ([], ["U1"], ["U2"], 1, [("U1", "U2")]) := by
    rw [MaxDistanceGeneratorAlgorithm.mdLoop]
    simp only [List.length_cons, List.length_nil, List.headD, List.tail, hd1]
    norm_num
    rw [hs1]
    simpa using hloop2
  unfold MaxDistanceGeneratorAlgorithm.compute_pairs_from_users
  rw [hsort]
  simp only [hmat, id_eq, hloop1]

/-- Evaluation helper: the Simple strategy on the two-member roster with
the always-busy service checks the pair four times (initial check plus
three retries), then ignores U1, and finally also moves the leftover U2
to the ignored list. -/
lemma simpleRunU12Busy :
    SimpleGeneratorAlgorithm.compute_pairs_from_users alwaysBusyService id rand0 3
      ["U1", "U2"] [] [] =
    .ok ⟨[], ["U1", "U2"], ["U2"],
      [("U1", "U2"), ("U1", "U2"), ("U1", "U2"), ("U1", "U2")], 4⟩ := by
  simp [SimpleGeneratorAlgorithm.compute_pairs_from_users, SimpleGeneratorAlgorithm.loop,
    SimpleGeneratorAlgorithm.retryLoop, choice, alwaysBusyService, rand0]

/-- C1.  Roster-partition invariant: the claim fails on the code.  For
the roster ["U1", "U2", "U3"] with a communication service that always
reports no recent exchange, the Max-Distance strategy commits the pair
(U1, U2) and ends with an empty ignored list: the roster member U3
appears in no committed pair and not in the ignored list, so the
multiset union of the flattened pairs and the ignored list is missing
U3 (the loop of lines 46-76 stops with one member left in the working
copy and, unlike the Simple strategy, never extends the ignored list
with it). -/
theorem c1_partition_invariant_omits_leftover :
    ∃ r : MaxDistanceGeneratorAlgorithm.MaxDistResult,
      MaxDistanceGeneratorAlgorithm.compute_pairs_from_users alwaysEligibleService id rand0 3
        ["U1", "U2", "U3"] [] [] = .ok r ∧
      "U3" ∈ (["U1", "U2", "U3"] : List Member) ∧
      (∀ p ∈ r.pairs, p.1 ≠ "U3" ∧ p.2 ≠ "U3") ∧
      "U3" ∉ r.ignored :=
  ⟨⟨[("U1", "U2")], [], ["U1", "U2", "U3"], ["U3"], [("U1", "U2")], 1⟩,
    maxdistRunU123, by decide, by decide, by decide⟩

/-- C2.  Parity law: the claim fails on the code.  For the three-member
roster with an always-eligible service the Max-Distance strategy does
produce 3 / 2 = 1 pair, but its ignored list is empty, not of size
3 % 2 = 1: the member left in the working copy when the loop stops is
never moved to the ignored list. -/
theorem c2_parity_law_ignored_count_wrong :
    ∃ r : MaxDistanceGeneratorAlgorithm.MaxDistResult,
      MaxDistanceGeneratorAlgorithm.compute_pairs_from_users alwaysEligibleService id rand0 3
        ["U1", "U2", "U3"] [] [] = .ok r ∧
      r.pairs.length = 3 / 2 ∧
      r.ignored.length ≠ 3 % 2 :=
  ⟨⟨[("U1", "U2")], [], ["U1", "U2", "U3"], ["U3"], [("U1", "U2")], 1⟩,
    maxdistRunU123, by decide, by decide⟩

/-- C3.  Exclusion respected: the claim fails on the code for the
Max-Distance strategy.  On the roster ["U1", "U2"] with a service that
always reports a recent exchange and backtrackMaxAttempts = 3, the
Simple strategy behaves exactly as the claim states (no pair committed,
both members ignored, the eligibility check invoked 4 times: the
initial check plus 3 retries), but the Max-Distance strategy ends with
only U1 in the ignored list: the leftover U2 is in neither accumulator,
and the check is invoked only once because the single candidate bucket
is exhausted after the first check. -/
theorem c3_exclusion_all_ignored_fails_maxdist :
    (SimpleGeneratorAlgorithm.compute_pairs_from_users alwaysBusyService id rand0 3
        ["U1", "U2"] [] [] =
      .ok ⟨[], ["U1", "U2"], ["U2"],
        [("U1", "U2"), ("U1", "U2"), ("U1", "U2"), ("U1", "U2")], 4⟩) ∧
    ∃ r : MaxDistanceGeneratorAlgorithm.MaxDistResult,
      MaxDistanceGeneratorAlgorithm.compute_pairs_from_users alwaysBusyService id rand0 3
        ["U1", "U2"] [] [] = .ok r ∧
      r.pairs = [] ∧
      r.ignored = ["U1"] ∧
      "U2" ∉ r.ignored ∧
      (∀ p ∈ r.pairs, p.1 ≠ "U2" ∧ p.2 ≠ "U2") :=
  ⟨simpleRunU12Busy,
    ⟨[], ["U1"], ["U1", "U2"], ["U2"], [("U1", "U2")], 1⟩,
    maxdistRunU12Busy, by decide, by decide, by decide, by decide⟩

/-- C4, counterexample.  A member can be moved to ignored by the
Max-Distance strategy although the backtrackMaxAttempts budget was not
exhausted for it and it was not the sole unmatched member left at loop
end: on the roster ["U1", "U2"] with an always-busy service and a
budget of 3 retries, U1 is ignored while U2 is still unmatched, after a
single eligibility check (so zero retries were used, fewer than the
budget): the only distance bucket was exhausted first. -/
theorem c4_ignored_before_budget_exhausted :
    ∃ r : MaxDistanceGeneratorAlgorithm.MaxDistResult,
      MaxDistanceGeneratorAlgorithm.compute_pairs_from_users alwaysBusyService id rand0 3
        ["U1", "U2"] [] [] = .ok r ∧
      r.ignored = ["U1"] ∧
      r.working = ["U2"] ∧
      r.trace.length = 1 ∧
      r.trace.length < 1 + 3 :=
  ⟨⟨[], ["U1"], ["U1", "U2"], ["U2"], [("U1", "U2")], 1⟩,
    maxdistRunU12Busy, by decide, by decide, by decide, by decide⟩

/-- On a nonempty list the random draw returns one of its elements. -/
theorem choice_mem (rand : Nat → Nat) (rk : Nat) (l : List Member) (h : l ≠ []) :
    choice rand rk l ∈ l := by
  unfold choice
  have hl : 0 < l.length := List.length_pos.mpr h
  have hlt : rand rk % l.length < l.length := Nat.mod_lt _ hl
  rw [List.getD_eq_getElem _ _ hlt]
  exact List.getElem_mem hlt

namespace SimpleGeneratorAlgorithm

/-- When the Simple strategy's retry loop gives up (the last check still
reports a recent exchange), the retry budget is exhausted: the loop can
only exit with a positive answer when the retry counter has reached
backtrackMaxAttempts. -/
theorem retryLoop_budget (svc : GenericMessagingApiWrapper) (rand : Nat → Nat)
    (maxAttempts : Nat) (current : Member) :
    ∀ (n : Nat) (users : List Member) (target : Member) (ex : Bool) (retry rk : Nat)
      (tr : List MPair) (r : RetryOut),
      maxAttempts - retry = n →
      retryLoop svc rand maxAttempts current users target ex retry rk tr = .ok r →
      r.exist = true → maxAttempts ≤ r.retry := by
  intro n
  induction n with
  | zero =>
      intro users target ex retry rk tr r hn hrun hex
      rw [retryLoop] at hrun
      split at hrun
      · next h => omega
      · next h =>
          cases hrun
          simp_all
  | succ n ih =>
      intro users target ex retry rk tr r hn hrun hex
      rw [retryLoop] at hrun
      split at hrun
      · next h =>
          simp only [] at hrun
          split at hrun
          · cases hrun
          · exact ih _ _ _ _ _ _ _ (by omega) hrun hex
      · next h =>
          cases hrun
          simp_all

end SimpleGeneratorAlgorithm

namespace MaxDistanceGeneratorAlgorithm

/-- When the inner while of the Max-Distance candidate search exits with
the last check still positive, either the global retry budget is
exhausted or the bucket has been emptied. -/
theorem search_inner_exhausted (svc : GenericMessagingApiWrapper) (rand : Nat → Nat)
    (maxRetries : Nat) (current : Member) :
    ∀ (n : Nat) (bucket : List Member) (cand : Member) (ex : Bool) (retry rk : Nat)
      (tr : List MPair) (r : InnerOut),
      bucket.length ≤ n →
      search_inner svc rand maxRetries current bucket cand ex retry rk tr = .ok r →
      r.exist = true → maxRetries ≤ r.retry ∨ r.bucket = [] := by
  intro n
  induction n with
  | zero =>
      intro bucket cand ex retry rk tr r hn hrun hex
      have hb : bucket = [] := List.length_eq_zero.mp (by omega)
      subst hb
      rw [search_inner] at hrun
      split at hrun
      · next h => exact absurd rfl h.2.2
      · cases hrun
        exact Or.inr rfl
  | succ n ih =>
      intro bucket cand ex retry rk tr r hn hrun hex
      rw [search_inner] at hrun
      split at hrun
      · next h =>
          simp only [] at hrun
          split at hrun
          · cases hrun
          · refine ih _ _ _ _ _ _ _ ?_ hrun hex
            have hmem := choice_mem rand rk bucket h.2.2
            have := List.length_erase_of_mem hmem
            have : 0 < bucket.length := List.length_pos.mpr h.2.2
            omega
      · next h =>
          cases hrun
          simp only [] at hex
          subst hex
          push_neg at h
          rcases Nat.lt_or_ge retry maxRetries with hlt | hge
          · exact Or.inr (h rfl hlt)
          · exact Or.inl hge

/-- When `_search_pair_for_user` returns no candidate, either the global
retry budget was exhausted, or every bucket of the (mutated) distance
dictionary has been emptied: all remaining candidates were drawn,
checked and rejected. -/
theorem search_pair_none (svc : GenericMessagingApiWrapper) (rand : Nat → Nat)
    (maxRetries : Nat) (current : Member) :
    ∀ (dict : List (Nat × List Member)) (retry rk : Nat) (tr : List MPair) (r : SearchOut),
      search_pair_for_user svc rand maxRetries current dict retry rk tr = .ok r →
      r.result = none →
      maxRetries ≤ r.retry ∨ ∀ kb ∈ r.dict, kb.2 = ([] : List Member) := by
  intro dict
  induction dict with
  | nil =>
      intro retry rk tr r hrun hres
      rw [search_pair_for_user] at hrun
      cases hrun
      exact Or.inr (by simp)
  | cons kb rest ih =>
      obtain ⟨k, bucket⟩ := kb
      intro retry rk tr r hrun hres
      rw [search_pair_for_user] at hrun
      split at hrun
      · cases hrun
      · next ex hex2 =>
          split at hrun
          · cases hrun
          · next ri hri =>
              split at hrun
              · cases hrun
                simp at hres
              · split at hrun
                · next hbud =>
                    cases hrun
                    exact Or.inl hbud
                · next hbud =>
                    split at hrun
                    · cases hrun
                    · next r2 hr2 =>
                        cases hrun
                        simp only [] at hres
                        rcases ih _ _ _ _ hr2 hres with hl | hr
                        · exact Or.inl hl
                        · refine Or.inr ?_
                          intro kb hkb
                          rcases List.mem_cons.mp hkb with heq | hmem
                          · subst heq
                            have hexi : ri.exist = true := by
                              revert hri
                              by_cases hx : ri.exist = false
                              · intro _; exact absurd hx (by simp_all)
                              · intro _; simpa using hx
                            rcases search_inner_exhausted svc rand maxRetries current
                                (bucket.erase (choice rand rk bucket)).length _ _ _ _ _ _ _
                                (le_refl _) hri hexi with ha | hb
                            · omega
                            · exact hb
                          · exact hr kb hmem

end MaxDistanceGeneratorAlgorithm

/-- C4, amended.  A member is moved to ignored only when its partner
search fails, and a failed search means: in the Simple strategy the
retry loop only gives up (last answer still "recent exchange exists")
with the full backtrackMaxAttempts budget spent; in the Max-Distance
strategy the search returns no candidate only when either the single
global retry budget shared across all distance buckets is exhausted, or
every bucket of the distance dictionary has been emptied, all its
candidates drawn and rejected, before the budget ran out. -/
theorem c4_ignored_only_after_budget_or_buckets_exhausted :
    (∀ (svc : GenericMessagingApiWrapper) (rand : Nat → Nat) (maxAttempts : Nat)
        (current : Member) (users : List Member) (target : Member) (ex : Bool)
        (retry rk : Nat) (tr : List MPair) (r : SimpleGeneratorAlgorithm.RetryOut),
        SimpleGeneratorAlgorithm.retryLoop svc rand maxAttempts current users target ex
          retry rk tr = .ok r →
        r.exist = true → maxAttempts ≤ r.retry) ∧
    (∀ (svc : GenericMessagingApiWrapper) (rand : Nat → Nat) (maxRetries : Nat)
        (current : Member) (dict : List (Nat × List Member)) (retry rk : Nat)
        (tr : List MPair) (r : MaxDistanceGeneratorAlgorithm.SearchOut),
        MaxDistanceGeneratorAlgorithm.search_pair_for_user svc rand maxRetries current dict
          retry rk tr = .ok r →
        r.result = none →
        maxRetries ≤ r.retry ∨ ∀ kb ∈ r.dict, kb.2 = ([] : List Member)) :=
  ⟨fun svc rand maxAttempts current users target ex retry rk tr r hrun hex =>
      SimpleGeneratorAlgorithm.retryLoop_budget svc rand maxAttempts current
        (maxAttempts - retry) users target ex retry rk tr r rfl hrun hex,
    fun svc rand maxRetries current dict retry rk tr r hrun hres =>
      MaxDistanceGeneratorAlgorithm.search_pair_none svc rand maxRetries current dict
        retry rk tr r hrun hres⟩

/-- C4, witness.  The amended theorem applied to concrete runs: giving
up on U1 in the Simple strategy with budget 3 happens with the retry
counter at 3, and the failing Max-Distance search on the singleton
bucket ends with that bucket emptied. -/
theorem c4_witness :
    (3 : Nat) ≤ 3 ∧
      ((3 : Nat) ≤ 0 ∨ ∀ kb ∈ [((0 : Nat), ([] : List Member))], kb.2 = ([] : List Member)) := by
  constructor
  · have hrun : SimpleGeneratorAlgorithm.retryLoop alwaysBusyService rand0 3 "U1" ["U2"]
        "U2" true 0 1 [("U1", "U2")] =
        .ok ⟨"U2", true, 3, 4, [("U1", "U2"), ("U1", "U2"), ("U1", "U2"), ("U1", "U2")]⟩ := by
      simp [SimpleGeneratorAlgorithm.retryLoop, choice, alwaysBusyService, rand0]
    exact c4_ignored_only_after_budget_or_buckets_exhausted.1 alwaysBusyService rand0 3
      "U1" ["U2"] "U2" true 0 1 [("U1", "U2")] _ hrun rfl
  · have hrun : MaxDistanceGeneratorAlgorithm.search_pair_for_user alwaysBusyService rand0 3
        "U1" [(0, ["U2"])] 0 0 [] = .ok ⟨none, 0, [(0, [])], 1, [("U1", "U2")]⟩ := by
      simp [MaxDistanceGeneratorAlgorithm.search_pair_for_user,
        MaxDistanceGeneratorAlgorithm.search_inner, choice, alwaysBusyService, rand0]
    exact c4_ignored_only_after_budget_or_buckets_exhausted.2 alwaysBusyService rand0 3
      "U1" [(0, ["U2"])] 0 0 [] _ hrun rfl

/-- Evaluation helper: the Simple strategy on roster ["A", "B"] with the
always-busy service and backtrackMaxAttempts = 1 checks the pair
(A, B), rejects it, then resamples the very same candidate B and checks
(A, B) a second time. -/
lemma simpleRunABBusy :
    SimpleGeneratorAlgorithm.compute_pairs_from_users alwaysBusyService id rand0 1
      ["A", "B"] [] [] =
    .ok ⟨[], ["A", "B"], ["B"], [("A", "B"), ("A", "B")], 2⟩ := by
  simp [SimpleGeneratorAlgorithm.compute_pairs_from_users, SimpleGeneratorAlgorithm.loop,
    SimpleGeneratorAlgorithm.retryLoop, choice, alwaysBusyService, rand0]

/-- C8, counterexample.  The Simple strategy's resampling is not
without replacement: on roster ["A", "B"] with a service that always
reports a recent exchange and backtrackMaxAttempts = 1, the candidate B
is checked for current member A, rejected, and then drawn and checked
again in the same retry loop — the run's check trace is
[(A, B), (A, B)], with the same pair checked twice. -/
theorem c8_resampling_repeats_rejected_candidate :
    ∃ r : SimpleGeneratorAlgorithm.SimpleResult,
      SimpleGeneratorAlgorithm.compute_pairs_from_users alwaysBusyService id rand0 1
        ["A", "B"] [] [] = .ok r ∧
      r.trace = [("A", "B"), ("A", "B")] ∧
      r.trace.count ("A", "B") = 2 ∧
      ¬ r.trace.Nodup :=
  ⟨⟨[], ["A", "B"], ["B"], [("A", "B"), ("A", "B")], 2⟩,
    simpleRunABBusy, by decide, by decide, by decide⟩

namespace SimpleGeneratorAlgorithm

/-- Every check performed by the Simple strategy's retry loop is on a
pair of the current member with a candidate drawn from the remaining
list, which the loop never mutates: previously rejected candidates stay
in the pool. -/
theorem retryLoop_trace (svc : GenericMessagingApiWrapper) (rand : Nat → Nat)
    (maxAttempts : Nat) (current : Member) :
    ∀ (n : Nat) (users : List Member) (target : Member) (ex : Bool) (retry rk : Nat)
      (tr : List MPair) (r : RetryOut),
      maxAttempts - retry = n →
      users ≠ [] →
      retryLoop svc rand maxAttempts current users target ex retry rk tr = .ok r →
      (∀ p ∈ r.trace, p ∈ tr ∨ (p.1 = current ∧ p.2 ∈ users)) ∧
        (retry ≤ maxAttempts → r.retry ≤ maxAttempts) := by
  intro n
  induction n with
  | zero =>
      intro users target ex retry rk tr r hn hne hrun
      rw [retryLoop] at hrun
      split at hrun
      · next h => omega
      · cases hrun
        exact ⟨fun p hp => Or.inl hp, fun h => h⟩
  | succ n ih =>
      intro users target ex retry rk tr r hn hne hrun
      rw [retryLoop] at hrun
      split at hrun
      · next h =>
          simp only [] at hrun
          split at hrun
          · cases hrun
          · next ex2 hcheck =>
              have hrec := ih users (choice rand rk users) ex2 (retry + 1) (rk + 1)
                (tr ++ [(current, choice rand rk users)]) r (by omega) hne hrun
              refine ⟨fun p hp => ?_, fun hle => hrec.2 (by omega)⟩
              rcases hrec.1 p hp with hin | hcur
              · rcases List.mem_append.mp hin with hl | hr
                · exact Or.inl hl
                · have : p = (current, choice rand rk users) := by simpa using hr
                  subst this
                  exact Or.inr ⟨rfl, choice_mem rand rk users hne⟩
              · exact Or.inr hcur
      · cases hrun
        exact ⟨fun p hp => Or.inl hp, fun h => h⟩

end SimpleGeneratorAlgorithm

/-- C8, amended.  Within the retry loop for one current member, every
resampled candidate is drawn from the remaining working list, which the
loop does not mutate (no removal happens until a pair is committed), so
a previously rejected candidate remains available and may be drawn and
checked again; the number of resamples is bounded by
backtrackMaxAttempts.  Every check the loop performs pairs the current
member with an element of the remaining list. -/
theorem c8_resamples_drawn_from_unchanged_pool :
    ∀ (svc : GenericMessagingApiWrapper) (rand : Nat → Nat) (maxAttempts : Nat)
      (current : Member) (users : List Member) (target : Member) (ex : Bool)
      (rk : Nat) (tr : List MPair) (r : SimpleGeneratorAlgorithm.RetryOut),
      users ≠ [] →
      SimpleGeneratorAlgorithm.retryLoop svc rand maxAttempts current users target ex
        0 rk tr = .ok r →
      (∀ p ∈ r.trace, p ∈ tr ∨ (p.1 = current ∧ p.2 ∈ users)) ∧
        r.retry ≤ maxAttempts :=
  fun svc rand maxAttempts current users target ex rk tr r hne hrun =>
    have h := SimpleGeneratorAlgorithm.retryLoop_trace svc rand maxAttempts current
      (maxAttempts - 0) users target ex 0 rk tr r rfl hne hrun
    ⟨h.1, h.2 (Nat.zero_le _)⟩

/-- C8, witness.  The amended theorem applied to the concrete retry
loop of the counterexample run: both checks of that loop pair A with a
member of the remaining list ["B"], and one retry was used out of the
budget of 1. -/
theorem c8_witness :
    (∀ p ∈ [(("A" : Member), ("B" : Member)), ("A", "B")],
        p ∈ ([(("A" : Member), ("B" : Member))] : List MPair) ∨
          (p.1 = "A" ∧ p.2 ∈ (["B"] : List Member))) ∧
      (1 : Nat) ≤ 1 := by
  have hrun : SimpleGeneratorAlgorithm.retryLoop alwaysBusyService rand0 1 "A" ["B"]
      "B" true 0 1 [("A", "B")] =
      .ok ⟨"B", true, 1, 2, [("A", "B"), ("A", "B")]⟩ := by
    simp [SimpleGeneratorAlgorithm.retryLoop, choice, alwaysBusyService, rand0]
  exact c8_resamples_drawn_from_unchanged_pool alwaysBusyService rand0 1 "A" ["B"]
    "B" true 1 [("A", "B")] _ (by decide) hrun

namespace SimpleGeneratorAlgorithm

/-- The Simple pairing loop always stops with at most one member left
in the list it consumes. -/
theorem loop_users_le_one (svc : GenericMessagingApiWrapper) (rand : Nat → Nat)
    (maxAttempts : Nat) :
    ∀ (n : Nat) (users : List Member) (pairs : List MPair) (ignored : List Member)
      (rk : Nat) (tr : List MPair) (r : SimpleResult),
      users.length ≤ n →
      loop svc rand maxAttempts users pairs ignored rk tr = .ok r →
      r.users.length ≤ 1 := by
  intro n
  induction n with
  | zero =>
      intro users pairs ignored rk tr r hn hrun
      rw [loop] at hrun
      split at hrun
      · next h => omega
      · cases hrun
        simpa using by omega
  | succ n ih =>
      intro users pairs ignored rk tr r hn hrun
      rw [loop] at hrun
      split at hrun
      · next h =>
          simp only [] at hrun
          split at hrun
          · cases hrun
          · split at hrun
            · cases hrun
            · next rr hrr =>
                have ht : users.tail.length = users.length - 1 := List.length_tail users
                split at hrun
                · exact ih _ _ _ _ _ _ (by omega) hrun
                · have he : (users.tail.erase rr.target).length ≤ users.tail.length :=
                    (List.erase_sublist _ _).length_le
                  exact ih _ _ _ _ _ _ (by omega) hrun
      · next h =>
          cases hrun
          simp only []
          omega

end SimpleGeneratorAlgorithm

/-- C10.  Both strategies mutate the caller's list in place: the Simple
strategy shuffles it and consumes it by popping and removing, so after
a completed call at most one element remains in it; the Max-Distance
strategy sorts it in place but removes nothing (its removals happen on
the separate working copy), so after a completed call the caller's list
is exactly the sorted input. -/
theorem c10_caller_list_mutation :
    (∀ (svc : GenericMessagingApiWrapper) (shuffle : List Member → List Member)
        (rand : Nat → Nat) (maxAttempts : Nat) (users : List Member)
        (pairs : List MPair) (ignored : List Member)
        (r : SimpleGeneratorAlgorithm.SimpleResult),
        SimpleGeneratorAlgorithm.compute_pairs_from_users svc shuffle rand maxAttempts
          users pairs ignored = .ok r →
        r.users.length ≤ 1) ∧
    (∀ (svc : GenericMessagingApiWrapper) (shuffle : List Member → List Member)
        (rand : Nat → Nat) (maxRetries : Nat) (users : List Member)
        (pairs : List MPair) (ignored : List Member)
        (r : MaxDistanceGeneratorAlgorithm.MaxDistResult),
        MaxDistanceGeneratorAlgorithm.compute_pairs_from_users svc shuffle rand maxRetries
          users pairs ignored = .ok r →
        r.users = sortList users) := by
  constructor
  · intro svc shuffle rand maxAttempts users pairs ignored r hrun
    exact SimpleGeneratorAlgorithm.loop_users_le_one svc rand maxAttempts
      (shuffle users).length (shuffle users) pairs ignored 0 [] r (le_refl _) hrun
  · intro svc shuffle rand maxRetries users pairs ignored r hrun
    unfold MaxDistanceGeneratorAlgorithm.compute_pairs_from_users at hrun
    simp only [] at hrun
    split at hrun
    · cases hrun
    · split at hrun
      · cases hrun
      · cases hrun
        rfl

/-- C10, witness.  The frame theorem applied to two concrete completed
runs: the Simple run leaves one member in the caller's list, and the
Max-Distance run leaves the sorted roster. -/
theorem c10_witness :
    (["U2"] : List Member).length ≤ 1 ∧
      (["U1", "U2", "U3"] : List Member) = sortList ["U1", "U2", "U3"] :=
  ⟨c10_caller_list_mutation.1 alwaysBusyService id rand0 3 ["U1", "U2"] [] [] _
      simpleRunU12Busy,
    c10_caller_list_mutation.2 alwaysEligibleService id rand0 3 ["U1", "U2", "U3"] [] [] _
      maxdistRunU123⟩

namespace SimpleGeneratorAlgorithm

/-- The Simple pairing loop only appends to the accumulators it is
given: running it from arbitrary initial accumulators equals running it
from empty ones and prefixing the initial contents. -/
theorem loop_prepend (svc : GenericMessagingApiWrapper) (rand : Nat → Nat)
    (maxAttempts : Nat) :
    ∀ (n : Nat) (users : List Member) (p : List MPair) (i : List Member)
      (rk : Nat) (tr : List MPair),
      users.length ≤ n →
      loop svc rand maxAttempts users p i rk tr =
        (loop svc rand maxAttempts users [] [] rk tr).map
          (fun r => ⟨p ++ r.pairs, i ++ r.ignored, r.users, r.trace, r.rk⟩) := by
  intro n
  induction n with
  | zero =>
      intro users p i rk tr hn
      rw [loop]
      conv_rhs => rw [loop]
      have hc : ¬ 1 < users.length := by omega
      simp [dif_neg hc, Except.map]
  | succ n ih =>
      intro users p i rk tr hn
      cases users with
      | nil =>
          rw [loop]
          conv_rhs => rw [loop]
          simp [Except.map]
      | cons u us =>
          rw [loop]
          conv_rhs => rw [loop]
          by_cases hc : 1 < (u :: us).length
          · simp only [dif_pos hc, List.headD_cons, List.tail_cons, List.nil_append]
            split
            · simp [Except.map]
            · next ex hcheck =>
                split
                · simp [Except.map]
                · next rr hretry =>
                    have hn' : us.length ≤ n := by
                      simp at hn
                      omega
                    by_cases hex : rr.exist = true
                    · simp only [if_pos hex]
                      rw [ih us p (i ++ [u]) rr.rk rr.trace hn',
                        ih us [] [u] rr.rk rr.trace hn']
                      cases loop svc rand maxAttempts us [] [] rr.rk rr.trace with
                      | error e => simp [Except.map]
                      | ok r0 => simp [Except.map]
                    · simp only [if_neg hex]
                      have he : (us.erase rr.target).length ≤ us.length :=
                        (List.erase_sublist _ _).length_le
                      rw [ih (us.erase rr.target) (p ++ [(u, rr.target)]) i rr.rk rr.trace
                          (by omega),
                        ih (us.erase rr.target) [(u, rr.target)] [] rr.rk rr.trace (by omega)]
                      cases loop svc rand maxAttempts (us.erase rr.target) [] []
                          rr.rk rr.trace with
                      | error e => simp [Except.map]
                      | ok r0 => simp [Except.map]
          · have hlen : us.length = 0 := by
              have hcons : (u :: us).length = us.length + 1 := List.length_cons u us
              omega
            have hus := List.length_eq_zero.mp hlen
            subst hus
            simp [Except.map]

end SimpleGeneratorAlgorithm

namespace MaxDistanceGeneratorAlgorithm

/-- The Max-Distance pairing loop only appends to the accumulators it
is given: running it from arbitrary initial accumulators equals running
it from empty ones and prefixing the initial contents. -/
theorem mdLoop_prepend (svc : GenericMessagingApiWrapper) (rand : Nat → Nat)
    (maxRetries : Nat) (users : List Member) (m : DistMatrix) :
    ∀ (n : Nat) (working : List Member) (p : List MPair) (i : List Member)
      (rk : Nat) (tr : List MPair),
      working.length ≤ n →
      mdLoop svc rand maxRetries users m working p i rk tr =
        (mdLoop svc rand maxRetries users m working [] [] rk tr).map
          (fun t => (p ++ t.1, i ++ t.2.1, t.2.2)) := by
  intro n
  induction n with
  | zero =>
      intro working p i rk tr hn
      rw [mdLoop]
      conv_rhs => rw [mdLoop]
      have hc : ¬ 1 < working.length := by omega
      simp [dif_neg hc, Except.map]
  | succ n ih =>
      intro working p i rk tr hn
      cases working with
      | nil =>
          rw [mdLoop]
          conv_rhs => rw [mdLoop]
          simp [Except.map]
      | cons u us =>
          rw [mdLoop]
          conv_rhs => rw [mdLoop]
          by_cases hc : 1 < (u :: us).length
          · simp only [dif_pos hc, List.headD_cons, List.tail_cons, List.nil_append]
            split
            · simp [Except.map]
            · next r hsearch =>
                have hn' : us.length ≤ n := by
                  have hcons : (u :: us).length = us.length + 1 := List.length_cons u us
                  omega
                cases hres : r.result with
                | none =>
                    simp only [hres]
                    rw [ih us p (i ++ [u]) r.rk r.trace hn',
                      ih us [] [u] r.rk r.trace hn']
                    cases mdLoop svc rand maxRetries users m us [] [] r.rk r.trace with
                    | error e => simp [Except.map]
                    | ok t0 => simp [Except.map]
                | some c =>
                    simp only [hres]
                    have he : (us.erase c).length ≤ us.length :=
                      (List.erase_sublist _ _).length_le
                    rw [ih (us.erase c) (p ++ [(u, c)]) i r.rk r.trace (by omega),
                      ih (us.erase c) [(u, c)] [] r.rk r.trace (by omega)]
                    cases mdLoop svc rand maxRetries users m (us.erase c) [] []
                        r.rk r.trace with
                    | error e => simp [Except.map]
                    | ok t0 => simp [Except.map]
          · have hlen : us.length = 0 := by
              have hcons : (u :: us).length = us.length + 1 := List.length_cons u us
              omega
            have hus := List.length_eq_zero.mp hlen
            subst hus
            simp [Except.map]

end MaxDistanceGeneratorAlgorithm

/-- C9.  Results accumulate across runs on one strategy instance: the
pairs and ignored accumulators are initialized once at construction and
compute_pairs_from_users only appends to them, so a call starting from
the accumulators left by a previous run returns the previous contents
followed by exactly what a run from empty accumulators would have
appended; in particular, after a second call, get_pairs and get_ignored
return the first run's results followed by the second run's results. -/
theorem c9_results_accumulate :
    (∀ (svc : GenericMessagingApiWrapper) (shuffle : List Member → List Member)
        (rand : Nat → Nat) (maxAttempts : Nat) (users : List Member)
        (p : List MPair) (i : List Member) (r : SimpleGeneratorAlgorithm.SimpleResult),
        SimpleGeneratorAlgorithm.compute_pairs_from_users svc shuffle rand maxAttempts
          users p i = .ok r →
        ∃ r0 : SimpleGeneratorAlgorithm.SimpleResult,
          SimpleGeneratorAlgorithm.compute_pairs_from_users svc shuffle rand maxAttempts
            users [] [] = .ok r0 ∧
          r.pairs = p ++ r0.pairs ∧ r.ignored = i ++ r0.ignored) ∧
    (∀ (svc : GenericMessagingApiWrapper) (shuffle : List Member → List Member)
        (rand : Nat → Nat) (maxRetries : Nat) (users : List Member)
        (p : List MPair) (i : List Member) (r : MaxDistanceGeneratorAlgorithm.MaxDistResult),
        MaxDistanceGeneratorAlgorithm.compute_pairs_from_users svc shuffle rand maxRetries
          users p i = .ok r →
        ∃ r0 : MaxDistanceGeneratorAlgorithm.MaxDistResult,
          MaxDistanceGeneratorAlgorithm.compute_pairs_from_users svc shuffle rand maxRetries
            users [] [] = .ok r0 ∧
          r.pairs = p ++ r0.pairs ∧ r.ignored = i ++ r0.ignored) := by
  constructor
  · intro svc shuffle rand maxAttempts users p i r hrun
    unfold SimpleGeneratorAlgorithm.compute_pairs_from_users at hrun ⊢
    rw [SimpleGeneratorAlgorithm.loop_prepend svc rand maxAttempts (shuffle users).length
      (shuffle users) p i 0 [] (le_refl _)] at hrun
    cases hbase : SimpleGeneratorAlgorithm.loop svc rand maxAttempts (shuffle users) [] []
        0 [] with
    | error e => rw [hbase] at hrun; cases hrun
    | ok r0 =>
        rw [hbase] at hrun
        cases hrun
        exact ⟨r0, rfl, rfl, rfl⟩
  · intro svc shuffle rand maxRetries users p i r hrun
    unfold MaxDistanceGeneratorAlgorithm.compute_pairs_from_users at hrun ⊢
    simp only [] at hrun ⊢
    cases hmat : MaxDistanceGeneratorAlgorithm.build_distance_matrix svc (sortList users) with
    | error e => rw [hmat] at hrun; cases hrun
    | ok m =>
        rw [hmat] at hrun
        simp only [] at hrun ⊢
        rw [MaxDistanceGeneratorAlgorithm.mdLoop_prepend svc rand maxRetries (sortList users)
          m (shuffle (sortList users)).length (shuffle (sortList users)) p i 0 []
          (le_refl _)] at hrun
        cases hbase : MaxDistanceGeneratorAlgorithm.mdLoop svc rand maxRetries
            (sortList users) m (shuffle (sortList users)) [] [] 0 [] with
        | error e => rw [hbase] at hrun; cases hrun
        | ok t0 =>
            rw [hbase] at hrun
            obtain ⟨p0, i0, w0, rk0, tr0⟩ := t0
            cases hrun
            exact ⟨⟨p0, i0, sortList users, w0, tr0, rk0⟩, rfl, rfl, rfl⟩

/-- C9, witness.  The accumulation theorem applied to concrete second
runs started from nonempty accumulators: the previous contents come
back as a prefix, followed by what the run itself appended. -/
theorem c9_witness :
    (∃ r0 : SimpleGeneratorAlgorithm.SimpleResult,
        SimpleGeneratorAlgorithm.compute_pairs_from_users alwaysBusyService id rand0 3
          ["U1", "U2"] [] [] = .ok r0 ∧
        ([("X", "Y")] : List MPair) = [("X", "Y")] ++ r0.pairs ∧
        (["Z", "U1", "U2"] : List Member) = ["Z"] ++ r0.ignored) ∧
    (∃ r0 : MaxDistanceGeneratorAlgorithm.MaxDistResult,
        MaxDistanceGeneratorAlgorithm.compute_pairs_from_users alwaysEligibleService id rand0 3
          ["U1"] [] [] = .ok r0 ∧
        ([("X", "Y")] : List MPair) = [("X", "Y")] ++ r0.pairs ∧
        (["Z"] : List Member) = ["Z"] ++ r0.ignored) := by
  constructor
  · have hrun : SimpleGeneratorAlgorithm.compute_pairs_from_users alwaysBusyService id rand0 3
        ["U1", "U2"] [("X", "Y")] ["Z"] =
        .ok ⟨[("X", "Y")], ["Z", "U1", "U2"], ["U2"],
          [("U1", "U2"), ("U1", "U2"), ("U1", "U2"), ("U1", "U2")], 4⟩ := by
      simp [SimpleGeneratorAlgorithm.compute_pairs_from_users, SimpleGeneratorAlgorithm.loop,
        SimpleGeneratorAlgorithm.retryLoop, choice, alwaysBusyService, rand0]
    exact c9_results_accumulate.1 alwaysBusyService id rand0 3 ["U1", "U2"]
      [("X", "Y")] ["Z"] _ hrun
  · have hrun : MaxDistanceGeneratorAlgorithm.compute_pairs_from_users alwaysEligibleService
        id rand0 3 ["U1"] [("X", "Y")] ["Z"] =
        .ok ⟨[("X", "Y")], ["Z"], ["U1"], ["U1"], [], 0⟩ := by
      have hmat : MaxDistanceGeneratorAlgorithm.build_distance_matrix alwaysEligibleService
          ["U1"] = .ok (fun _ => 0) := by
        simp [MaxDistanceGeneratorAlgorithm.build_distance_matrix,
          MaxDistanceGeneratorAlgorithm.build_channels, alwaysEligibleService]
      have hsort : sortList ["U1"] = ["U1"] := by decide
      unfold MaxDistanceGeneratorAlgorithm.compute_pairs_from_users
      rw [hsort]
      simp only [hmat, id_eq]
      rw [MaxDistanceGeneratorAlgorithm.mdLoop]
      simp
    exact c9_results_accumulate.2 alwaysEligibleService id rand0 3 ["U1"]
      [("X", "Y")] ["Z"] _ hrun

namespace MaxDistanceGeneratorAlgorithm

theorem addToBucket_ne_nil (d : List (Nat × List Member)) (k : Nat) (v : Member) :
    addToBucket d k v ≠ [] := by
  cases d with
  | nil => simp [addToBucket]
  | cons hd tl =>
      obtain ⟨k', vs⟩ := hd
      unfold addToBucket
      split <;> simp

theorem dict_insert_ne_nil (users working : List Member) (current : Member)
    (m : DistMatrix) (d : List (Nat × List Member)) (test : Member) (hd : d ≠ []) :
    dict_insert users working current m d test ≠ [] := by
  unfold dict_insert
  split
  · exact hd
  · exact addToBucket_ne_nil _ _ _

theorem dict_fold_ne_nil (users working : List Member) (current : Member)
    (m : DistMatrix) :
    ∀ (l : List Member) (d : List (Nat × List Member)), d ≠ [] →
      l.foldl (dict_insert users working current m) d ≠ [] := by
  intro l
  induction l with
  | nil => intro d hd; simpa using hd
  | cons u us ih =>
      intro d hd
      simpa using ih _ (dict_insert_ne_nil _ _ _ _ _ _ hd)

theorem dict_fold_adds (users working : List Member) (current : Member)
    (m : DistMatrix) :
    ∀ (l : List Member) (d : List (Nat × List Member)) (t : Member),
      t ∈ l → t ∈ working → t ≠ current →
      l.foldl (dict_insert users working current m) d ≠ [] := by
  intro l
  induction l with
  | nil => intro d t ht; cases ht
  | cons u us ih =>
      intro d t ht hw hc
      rcases List.mem_cons.mp ht with heq | hmem
      · subst heq
        have hcond : ¬ (t ∉ working ∨ t = current) := by
          push_neg
          exact ⟨hw, hc⟩
        rw [List.foldl_cons]
        apply dict_fold_ne_nil
        simp only [dict_insert, if_neg hcond]
        exact addToBucket_ne_nil _ _ _
      · rw [List.foldl_cons]
        exact ih _ _ hmem hw hc

theorem build_user_distance_dict_ne_nil (users working : List Member) (current : Member)
    (m : DistMatrix) (t : Member) (htu : t ∈ users) (htw : t ∈ working)
    (htc : t ≠ current) :
    build_user_distance_dict users working current m ≠ [] := by
  unfold build_user_distance_dict
  intro hnil
  have hlen := List.length_insertionSort (fun a b : Nat × List Member => a.1 ≤ b.1)
    (users.foldl (dict_insert users working current m) [])
  rw [hnil] at hlen
  have := dict_fold_adds users working current m users [] t htu htw htc
  exact this (List.length_eq_zero.mp hlen.symm)

end MaxDistanceGeneratorAlgorithm

/-- C7.  Communication errors are fatal and surfaced: if the service
fails while listing channels, listing a channel's members, or checking
a recent exchange, the strategy's run terminates with that very error
(modelling the source's catch-log-sys.exit(-1) as a fatal outcome
carrying the caught error): no partial distance matrix is used, no
further pairing proceeds, and a failed eligibility check is never
treated as eligible or ineligible. -/
theorem c7_communication_errors_abort_run :
    (∀ (svc : GenericMessagingApiWrapper) (shuffle : List Member → List Member)
        (rand : Nat → Nat) (maxRetries : Nat) (users : List Member)
        (p : List MPair) (i : List Member) (e : GroupwareCommunicationError),
        svc.get_public_channel_ids = .error e →
        MaxDistanceGeneratorAlgorithm.compute_pairs_from_users svc shuffle rand maxRetries
          users p i = .error e) ∧
    (∀ (svc : GenericMessagingApiWrapper) (shuffle : List Member → List Member)
        (rand : Nat → Nat) (maxRetries : Nat) (users : List Member)
        (p : List MPair) (i : List Member) (e : GroupwareCommunicationError)
        (ch : String) (rest : List String),
        svc.get_public_channel_ids = .ok (ch :: rest) →
        (∀ c : String, svc.get_users_from_channel c = .error e) →
        MaxDistanceGeneratorAlgorithm.build_distance_matrix svc (sortList users) = .error e ∧
        MaxDistanceGeneratorAlgorithm.compute_pairs_from_users svc shuffle rand maxRetries
          users p i = .error e) ∧
    (∀ (svc : GenericMessagingApiWrapper) (shuffle : List Member → List Member)
        (rand : Nat → Nat) (maxAttempts : Nat) (users : List Member)
        (p : List MPair) (i : List Member) (e : GroupwareCommunicationError),
        (∀ (k : Nat) (pr : MPair),
          svc.exist_recent_message_exchange_in_pairs k pr = .error e) →
        1 < (shuffle users).length →
        SimpleGeneratorAlgorithm.compute_pairs_from_users svc shuffle rand maxAttempts
          users p i = .error e) ∧
    (∀ (svc : GenericMessagingApiWrapper) (shuffle : List Member → List Member)
        (rand : Nat → Nat) (maxRetries : Nat) (users : List Member)
        (p : List MPair) (i : List Member) (e : GroupwareCommunicationError)
        (m : MaxDistanceGeneratorAlgorithm.DistMatrix),
        MaxDistanceGeneratorAlgorithm.build_distance_matrix svc (sortList users) = .ok m →
        (∀ (k : Nat) (pr : MPair),
          svc.exist_recent_message_exchange_in_pairs k pr = .error e) →
        (∀ x ∈ shuffle (sortList users), x ∈ sortList users) →
        (shuffle (sortList users)).Nodup →
        1 < (shuffle (sortList users)).length →
        MaxDistanceGeneratorAlgorithm.compute_pairs_from_users svc shuffle rand maxRetries
          users p i = .error e) := by
  refine ⟨?_, ?_, ?_, ?_⟩
  · intro svc shuffle rand maxRetries users p i e hch
    unfold MaxDistanceGeneratorAlgorithm.compute_pairs_from_users
    simp only []
    unfold MaxDistanceGeneratorAlgorithm.build_distance_matrix
    rw [hch]
  · intro svc shuffle rand maxRetries users p i e ch rest hch hmem
    have hbuild : MaxDistanceGeneratorAlgorithm.build_distance_matrix svc
        (sortList users) = .error e := by
      unfold MaxDistanceGeneratorAlgorithm.build_distance_matrix
      rw [hch]
      simp only []
      rw [MaxDistanceGeneratorAlgorithm.build_channels.eq_def]
      simp only [hmem ch]
    refine ⟨hbuild, ?_⟩
    unfold MaxDistanceGeneratorAlgorithm.compute_pairs_from_users
    simp only []
    rw [hbuild]
  · intro svc shuffle rand maxAttempts users p i e hck hlen
    unfold SimpleGeneratorAlgorithm.compute_pairs_from_users
    rw [SimpleGeneratorAlgorithm.loop]
    rw [dif_pos hlen]
    simp [hck]
  · intro svc shuffle rand maxRetries users p i e m hmat hck hsub hnd hlen
    unfold MaxDistanceGeneratorAlgorithm.compute_pairs_from_users
    simp only []
    rw [hmat]
    simp only []
    suffices hmd : MaxDistanceGeneratorAlgorithm.mdLoop svc rand maxRetries (sortList users)
        m (shuffle (sortList users)) p i 0 [] = .error e by
      rw [hmd]
    cases hwk : shuffle (sortList users) with
    | nil => rw [hwk] at hlen; simp at hlen
    | cons u us =>
        rw [hwk] at hlen hsub hnd
        cases us with
        | nil => simp at hlen
        | cons t ts =>
            have htw : t ∈ (t :: ts : List Member) := List.mem_cons_self t ts
            have htu : t ∈ sortList users := hsub t (by simp)
            have htc : t ≠ u := by
              intro hteq
              subst hteq
              exact (List.nodup_cons.mp hnd).1 (List.mem_cons_self t ts)
            have hdict := MaxDistanceGeneratorAlgorithm.build_user_distance_dict_ne_nil
              (sortList users) (t :: ts) u m t htu htw htc
            rw [MaxDistanceGeneratorAlgorithm.mdLoop]
            rw [dif_pos hlen]
            simp only [List.headD_cons, List.tail_cons]
            cases hd : MaxDistanceGeneratorAlgorithm.build_user_distance_dict
                (sortList users) (t :: ts) u m with
            | nil => exact absurd hd hdict
            | cons kb drest =>
                obtain ⟨k, bucket⟩ := kb
                rw [MaxDistanceGeneratorAlgorithm.search_pair_for_user]
                simp [hck]

/-- Service double whose channel listing fails. -/
def failingChannelsService : GenericMessagingApiWrapper :=
  ⟨.error ⟨"boom"⟩, fun _ => .ok [], fun _ _ => .ok false⟩

/-- Service double whose channel-member listing fails. -/
def failingMembersService : GenericMessagingApiWrapper :=
  ⟨.ok ["C1"], fun _ => .error ⟨"boom"⟩, fun _ _ => .ok false⟩

/-- Service double whose recent-exchange check fails. -/
def failingCheckService : GenericMessagingApiWrapper :=
  ⟨.ok [], fun _ => .ok [], fun _ _ => .error ⟨"boom"⟩⟩

/-- C7, witness.  Each abort case of the error theorem applied to a
concrete service double and a concrete roster. -/
theorem c7_witness :
    MaxDistanceGeneratorAlgorithm.compute_pairs_from_users failingChannelsService id rand0 3
        ["U1", "U2"] [] [] = .error ⟨"boom"⟩ ∧
      MaxDistanceGeneratorAlgorithm.compute_pairs_from_users failingMembersService id rand0 3
        ["U1", "U2"] [] [] = .error ⟨"boom"⟩ ∧
      SimpleGeneratorAlgorithm.compute_pairs_from_users failingCheckService id rand0 3
        ["U1", "U2"] [] [] = .error ⟨"boom"⟩ ∧
      MaxDistanceGeneratorAlgorithm.compute_pairs_from_users failingCheckService id rand0 3
        ["U1", "U2"] [] [] = .error ⟨"boom"⟩ := by
  refine ⟨?_, ?_, ?_, ?_⟩
  · exact c7_communication_errors_abort_run.1 failingChannelsService id rand0 3
      ["U1", "U2"] [] [] ⟨"boom"⟩ rfl
  · exact (c7_communication_errors_abort_run.2.1 failingMembersService id rand0 3
      ["U1", "U2"] [] [] ⟨"boom"⟩ "C1" [] rfl (fun _ => rfl)).2
  · exact c7_communication_errors_abort_run.2.2.1 failingCheckService id rand0 3
      ["U1", "U2"] [] [] ⟨"boom"⟩ (fun _ _ => rfl) (by decide)
  · refine c7_communication_errors_abort_run.2.2.2 failingCheckService id rand0 3
      ["U1", "U2"] [] [] ⟨"boom"⟩ (fun _ => 0) ?_ (fun _ _ => rfl) (fun x hx => hx)
      (by decide) (by decide)
    simp [MaxDistanceGeneratorAlgorithm.build_distance_matrix,
      MaxDistanceGeneratorAlgorithm.build_channels, failingCheckService]

instance : IsTotal (Nat × List Member) (fun a b => a.1 ≤ b.1) :=
  ⟨fun a b => le_total a.1 b.1⟩

instance : IsTrans (Nat × List Member) (fun a b => a.1 ≤ b.1) :=
  ⟨fun _ _ _ hab hbc => le_trans hab hbc⟩

/-- Drawing from a one-element list is deterministic. -/
theorem choice_singleton (rand : Nat → Nat) (rk : Nat) (x : Member) :
    choice rand rk [x] = x := by
  simp [choice, Nat.mod_one]

namespace MaxDistanceGeneratorAlgorithm

/-- The distance dictionary's buckets are ordered by ascending distance
key. -/
theorem dict_sorted (users working : List Member) (current : Member) (m : DistMatrix) :
    List.Sorted (fun a b : Nat × List Member => a.1 ≤ b.1)
      (build_user_distance_dict users working current m) :=
  List.sorted_insertionSort _ _

/-- Bucket insertion preserves any per-element invariant. -/
theorem addToBucket_spec (Q : Member → Nat → Prop) :
    ∀ (d : List (Nat × List Member)) (k : Nat) (v : Member),
      (∀ kb ∈ d, ∀ u ∈ kb.2, Q u kb.1) → Q v k →
      ∀ kb ∈ addToBucket d k v, ∀ u ∈ kb.2, Q u kb.1 := by
  intro d
  induction d with
  | nil =>
      intro k v _ hq kb hkb u hu
      simp [addToBucket] at hkb
      subst hkb
      simp at hu
      subst hu
      exact hq
  | cons hd tl ih =>
      obtain ⟨k', vs⟩ := hd
      intro k v hall hq kb hkb u hu
      unfold addToBucket at hkb
      split at hkb
      · next heq =>
          subst heq
          rcases List.mem_cons.mp hkb with hkb1 | hkb2
          · subst hkb1
            simp at hu
            rcases hu with hu1 | hu2
            · exact hall (k', vs) (by simp) u (by simpa using hu1)
            · subst hu2
              exact hq
          · exact hall kb (List.mem_cons_of_mem _ hkb2) u hu
      · rcases List.mem_cons.mp hkb with hkb1 | hkb2
        · subst hkb1
          exact hall (k', vs) (by simp) u hu
        · exact ih k v (fun kb' hkb' => hall kb' (List.mem_cons_of_mem _ hkb')) hq kb hkb2 u hu

/-- Invariant of the dictionary-building scan. -/
theorem dict_fold_spec (users working : List Member) (current : Member) (m : DistMatrix) :
    ∀ (l : List Member) (d : List (Nat × List Member)),
      (∀ kb ∈ d, ∀ u ∈ kb.2,
        u ∈ working ∧ u ≠ current ∧ m (get_sparse_matrix_index users current u) = kb.1) →
      ∀ kb ∈ l.foldl (dict_insert users working current m) d, ∀ u ∈ kb.2,
        u ∈ working ∧ u ≠ current ∧ m (get_sparse_matrix_index users current u) = kb.1 := by
  intro l
  induction l with
  | nil => intro d hall; simpa using hall
  | cons t ts ih =>
      intro d hall
      rw [List.foldl_cons]
      apply ih
      unfold dict_insert
      split
      · exact hall
      · next hcond =>
          push_neg at hcond
          exact addToBucket_spec
            (fun u k => u ∈ working ∧ u ≠ current ∧
              m (get_sparse_matrix_index users current u) = k)
            d _ t hall ⟨hcond.1, hcond.2, rfl⟩

/-- Every member of a bucket of the distance dictionary is a working-set
member other than the current user whose matrix distance to the current
user equals the bucket's key. -/
theorem dict_bucket_spec (users working : List Member) (current : Member) (m : DistMatrix) :
    ∀ kb ∈ build_user_distance_dict users working current m, ∀ u ∈ kb.2,
      u ∈ working ∧ u ≠ current ∧ m (get_sparse_matrix_index users current u) = kb.1 := by
  intro kb hkb
  unfold build_user_distance_dict at hkb
  rw [List.mem_insertionSort] at hkb
  exact dict_fold_spec users working current m users [] (by simp) kb hkb

end MaxDistanceGeneratorAlgorithm

/-- Distance matrix for the C5 scenario: member X at distance 0 from
current member A (matrix cell (0, 1)), member Y at distance 3 (cell
(0, 2)). -/
def mXY : MaxDistanceGeneratorAlgorithm.DistMatrix :=
  fun p => if p = (0, 1) then 0 else if p = (0, 2) then 3 else 0

/-- In the C5 scenario the search draws X from the distance-0 bucket
first, finds it eligible, and pairs it; Y is never checked. -/
lemma search_scenario_XY :
    ∀ (svc : GenericMessagingApiWrapper) (rand : Nat → Nat) (maxRetries : Nat),
      svc.exist_recent_message_exchange_in_pairs 0 ("A", "X") = .ok false →
      MaxDistanceGeneratorAlgorithm.search_pair_for_user svc rand maxRetries "A"
        [(0, ["X"]), (3, ["Y"])] 0 0 [] =
        .ok ⟨some "X", 0, [(0, []), (3, ["Y"])], 1, [("A", "X")]⟩ := by
  intro svc rand maxRetries h
  rw [MaxDistanceGeneratorAlgorithm.search_pair_for_user]
  simp only [choice_singleton, List.length_nil, List.nil_append, h]
  rw [MaxDistanceGeneratorAlgorithm.search_inner]
  simp

/-- C5.  Distance ordering in the Max-Distance strategy: candidates
still in the working set are bucketed by their matrix distance to the
current member, the buckets are walked in ascending key order (the
dictionary is rebuilt with sorted keys and every bucket member's
distance equals its bucket key); consequently, when the candidates for
current member A are X at distance 0 and Y at distance 3 and X is
eligible, the search checks X first and pairs it — its check trace is
exactly [(A, X)], so Y is never attempted. -/
theorem c5_distance_ordering_attempts_closest_first :
    (∀ (users working : List Member) (current : Member)
        (m : MaxDistanceGeneratorAlgorithm.DistMatrix),
        List.Sorted (fun a b : Nat × List Member => a.1 ≤ b.1)
          (MaxDistanceGeneratorAlgorithm.build_user_distance_dict users working current m)) ∧
    (∀ (users working : List Member) (current : Member)
        (m : MaxDistanceGeneratorAlgorithm.DistMatrix)
        (kb : Nat × List Member),
        kb ∈ MaxDistanceGeneratorAlgorithm.build_user_distance_dict users working current m →
        ∀ u ∈ kb.2, u ∈ working ∧ u ≠ current ∧
          m (MaxDistanceGeneratorAlgorithm.get_sparse_matrix_index users current u) = kb.1) ∧
    (MaxDistanceGeneratorAlgorithm.build_user_distance_dict ["A", "X", "Y"] ["X", "Y"] "A"
        mXY = [(0, ["X"]), (3, ["Y"])]) ∧
    (∀ (svc : GenericMessagingApiWrapper) (rand : Nat → Nat) (maxRetries : Nat),
        svc.exist_recent_message_exchange_in_pairs 0 ("A", "X") = .ok false →
        MaxDistanceGeneratorAlgorithm.search_pair_for_user svc rand maxRetries "A"
          (MaxDistanceGeneratorAlgorithm.build_user_distance_dict ["A", "X", "Y"]
            ["X", "Y"] "A" mXY) 0 0 [] =
          .ok ⟨some "X", 0, [(0, []), (3, ["Y"])], 1, [("A", "X")]⟩) := by
  have hdict : MaxDistanceGeneratorAlgorithm.build_user_distance_dict ["A", "X", "Y"]
      ["X", "Y"] "A" mXY = [(0, ["X"]), (3, ["Y"])] := by decide
  refine ⟨MaxDistanceGeneratorAlgorithm.dict_sorted,
    MaxDistanceGeneratorAlgorithm.dict_bucket_spec, hdict, ?_⟩
  intro svc rand maxRetries h
  rw [hdict]
  exact search_scenario_XY svc rand maxRetries h

/-- C5, witness.  The scenario conjunct applied to the always-eligible
service: X is drawn, checked once and paired; the trace contains no
check of Y. -/
theorem c5_witness :
    MaxDistanceGeneratorAlgorithm.search_pair_for_user alwaysEligibleService rand0 3 "A"
      (MaxDistanceGeneratorAlgorithm.build_user_distance_dict ["A", "X", "Y"]
        ["X", "Y"] "A" mXY) 0 0 [] =
      .ok ⟨some "X", 0, [(0, []), (3, ["Y"])], 1, [("A", "X")]⟩ :=
  c5_distance_ordering_attempts_closest_first.2.2.2 alwaysEligibleService rand0 3 rfl

namespace MaxDistanceGeneratorAlgorithm

/-- The canonical matrix index of an unordered pair is argument-order
invariant: the smaller member's row is used either way. -/
theorem get_sparse_matrix_index_symm (users : List Member) (a b : Member) :
    get_sparse_matrix_index users a b = get_sparse_matrix_index users b a := by
  unfold get_sparse_matrix_index
  by_cases h1 : b.toList < a.toList
  · by_cases h2 : a.toList < b.toList
    · exact absurd h2 (lt_asymm h1)
    · rw [if_pos h1, if_neg h2]
  · by_cases h2 : a.toList < b.toList
    · rw [if_neg h1, if_pos h2]
    · have heq : a.toList = b.toList := le_antisymm (le_of_not_lt h1) (le_of_not_lt h2)
      have hab : a = b := String.toList_inj.mp heq
      subst hab
      rfl

/-- For two distinct roster members the canonical index never lies on
the diagonal. -/
theorem get_sparse_matrix_index_offdiag (users : List Member) (x y : Member)
    (hnd : users.Nodup) (hx : x ∈ users) (hy : y ∈ users) (hxy : x ≠ y) :
    (get_sparse_matrix_index users x y).1 ≠ (get_sparse_matrix_index users x y).2 := by
  unfold get_sparse_matrix_index
  have hidx : List.indexOf x users ≠ List.indexOf y users := by
    intro h
    exact hxy ((List.indexOf_inj hx hy).mp h)
  split
  · simpa using fun h => hidx h.symm
  · simpa using hidx

/-- Two unordered pairs of roster members with the same canonical index
are the same pair. -/
theorem get_sparse_matrix_index_inj (users : List Member) (u v a b : Member)
    (hnd : users.Nodup) (hu : u ∈ users) (hv : v ∈ users) (ha : a ∈ users)
    (hb : b ∈ users) :
    get_sparse_matrix_index users u v = get_sparse_matrix_index users a b →
    (u = a ∧ v = b) ∨ (u = b ∧ v = a) := by
  unfold get_sparse_matrix_index
  split
  · split
    · intro h
      rw [Prod.mk.injEq] at h
      exact Or.inl ⟨(List.indexOf_inj hu ha).mp h.2, (List.indexOf_inj hv hb).mp h.1⟩
    · intro h
      rw [Prod.mk.injEq] at h
      exact Or.inr ⟨(List.indexOf_inj hu hb).mp h.2, (List.indexOf_inj hv ha).mp h.1⟩
  · split
    · intro h
      rw [Prod.mk.injEq] at h
      exact Or.inr ⟨(List.indexOf_inj hu hb).mp h.1, (List.indexOf_inj hv ha).mp h.2⟩
    · intro h
      rw [Prod.mk.injEq] at h
      exact Or.inl ⟨(List.indexOf_inj hu ha).mp h.1, (List.indexOf_inj hv hb).mp h.2⟩

end MaxDistanceGeneratorAlgorithm

namespace MaxDistanceGeneratorAlgorithm

/-- Components of a combination come from the underlying list. -/
theorem mem_combinations2 :
    ∀ (l : List Member) (p : MPair), p ∈ combinations2 l → p.1 ∈ l ∧ p.2 ∈ l := by
  intro l
  induction l with
  | nil => intro p hp; cases hp
  | cons x xs ih =>
      intro p hp
      unfold combinations2 at hp
      rcases List.mem_append.mp hp with hmap | hrec
      · obtain ⟨y, hy, hpy⟩ := List.mem_map.mp hmap
        subst hpy
        exact ⟨by simp, by simp [hy]⟩
      · have := ih p hrec
        exact ⟨List.mem_cons_of_mem _ this.1, List.mem_cons_of_mem _ this.2⟩

/-- On a duplicate-free list every combination has distinct
components. -/
theorem combinations2_ne :
    ∀ (l : List Member), l.Nodup → ∀ p : MPair, p ∈ combinations2 l → p.1 ≠ p.2 := by
  intro l
  induction l with
  | nil => intro _ p hp; cases hp
  | cons x xs ih =>
      intro hnd p hp
      unfold combinations2 at hp
      rcases List.mem_append.mp hp with hmap | hrec
      · obtain ⟨y, hy, hpy⟩ := List.mem_map.mp hmap
        subst hpy
        intro hxy
        have hxy' : x = y := hxy
        apply (List.nodup_cons.mp hnd).1
        rw [hxy']
        exact hy
      · exact ih (List.nodup_cons.mp hnd).2 p hrec

/-- A member of a duplicate-free list is counted exactly once. -/
theorem countP_eq_one_of_nodup_mem (b : Member) :
    ∀ (l : List Member), l.Nodup → b ∈ l →
      l.countP (fun y => decide (y = b)) = 1 := by
  intro l
  induction l with
  | nil => intro _ hb; cases hb
  | cons y ys ih =>
      intro hnd hb
      rw [List.countP_cons]
      rcases List.mem_cons.mp hb with heq | hmem
      · subst heq
        have hzero : ys.countP (fun y => decide (y = b)) = 0 :=
          List.countP_eq_zero.mpr (fun a ha hpa => by
            have : a = b := by simpa using hpa
            subst this
            exact (List.nodup_cons.mp hnd).1 ha)
        simp [hzero]
      · have hne : y ≠ b := by
          intro heq
          subst heq
          exact (List.nodup_cons.mp hnd).1 hmem
        rw [ih (List.nodup_cons.mp hnd).2 hmem]
        simp [hne]

/-- An unordered pair of distinct members of a duplicate-free list
occurs exactly once among its combinations. -/
theorem countP_pair_combinations2 (a b : Member) :
    ∀ (l : List Member), l.Nodup → a ∈ l → b ∈ l → a ≠ b →
      (combinations2 l).countP (fun p => decide (p = (a, b) ∨ p = (b, a))) = 1 := by
  intro l
  induction l with
  | nil => intro _ ha; cases ha
  | cons x xs ih =>
      intro hnd ha hb hab
      obtain ⟨hx, hndxs⟩ := List.nodup_cons.mp hnd
      unfold combinations2
      rw [List.countP_append, List.countP_map]
      by_cases hxa : x = a
      · subst hxa
        have hbxs : b ∈ xs := by
          rcases List.mem_cons.mp hb with h | h
          · exact absurd h.symm hab
          · exact h
        have hmap : xs.countP ((fun p => decide (p = (x, b) ∨ p = (b, x))) ∘
            (fun y => (x, y))) = 1 := by
          have hcongr : ∀ y ∈ xs, ((fun p => decide (p = (x, b) ∨ p = (b, x))) ∘
              (fun y => (x, y))) y = true ↔ (fun y => decide (y = b)) y = true := by
            intro y hy
            simp only [Function.comp, decide_eq_true_eq, Prod.mk.injEq]
            constructor
            · rintro (⟨_, h2⟩ | ⟨h1, _⟩)
              · simpa using h2
              · exact absurd h1 hab
            · intro h
              have hyb : y = b := by simpa using h
              subst hyb
              simp
          rw [List.countP_congr hcongr]
          exact countP_eq_one_of_nodup_mem b xs hndxs hbxs
        have hrec : (combinations2 xs).countP
            (fun p => decide (p = (x, b) ∨ p = (b, x))) = 0 := by
          apply List.countP_eq_zero.mpr
          intro p hp hpp
          have hmem := mem_combinations2 xs p hp
          rcases (by simpa using hpp : p = (x, b) ∨ p = (b, x)) with h | h
          · subst h; exact hx hmem.1
          · subst h; exact hx hmem.2
        rw [hmap, hrec]
      · by_cases hxb : x = b
        · subst hxb
          have haxs : a ∈ xs := by
            rcases List.mem_cons.mp ha with h | h
            · exact absurd h (fun heq => hxa heq.symm)
            · exact h
          have hmap : xs.countP ((fun p => decide (p = (a, x) ∨ p = (x, a))) ∘
              (fun y => (x, y))) = 1 := by
            have hcongr : ∀ y ∈ xs, ((fun p => decide (p = (a, x) ∨ p = (x, a))) ∘
                (fun y => (x, y))) y = true ↔ (fun y => decide (y = a)) y = true := by
              intro y hy
              simp only [Function.comp, decide_eq_true_eq, Prod.mk.injEq]
              constructor
              · rintro (⟨h1, _⟩ | ⟨_, h2⟩)
                · exact absurd h1 hxa
                · simpa using h2
              · intro h
                have hya : y = a := by simpa using h
                subst hya
                simp
            rw [List.countP_congr hcongr]
            exact countP_eq_one_of_nodup_mem a xs hndxs haxs
          have hrec : (combinations2 xs).countP
              (fun p => decide (p = (a, x) ∨ p = (x, a))) = 0 := by
            apply List.countP_eq_zero.mpr
            intro p hp hpp
            have hmem := mem_combinations2 xs p hp
            rcases (by simpa using hpp : p = (a, x) ∨ p = (x, a)) with h | h
            · subst h; exact hx hmem.2
            · subst h; exact hx hmem.1
          rw [hmap, hrec]
        · have haxs : a ∈ xs := by
            rcases List.mem_cons.mp ha with h | h
            · exact absurd h (fun heq => hxa heq.symm)
            · exact h
          have hbxs : b ∈ xs := by
            rcases List.mem_cons.mp hb with h | h
            · exact absurd h (fun heq => hxb heq.symm)
            · exact h
          have hmap : xs.countP ((fun p => decide (p = (a, b) ∨ p = (b, a))) ∘
              (fun y => (x, y))) = 0 := by
            apply List.countP_eq_zero.mpr
            intro y hy hpy
            rcases (by simpa using hpy : (x = a ∧ y = b) ∨ (x = b ∧ y = a)) with h | h
            · exact hxa h.1
            · exact hxb h.1
          rw [hmap, ih hndxs haxs hbxs hab]

end MaxDistanceGeneratorAlgorithm

/-- Number of channels whose member list contains both given members —
the quantity the spec says a distance cell equals.  Written against the
service behaviour so it can be compared with the built matrix. -/
def spec_coPresenceCount (svc : GenericMessagingApiWrapper) (chs : List String)
    (a b : Member) : Nat :=
  chs.countP (fun ch =>
    match svc.get_users_from_channel ch with
    | .ok l => decide (a ∈ l ∧ b ∈ l)
    | .error _ => false)

namespace MaxDistanceGeneratorAlgorithm

/-- Iterated uint16 increment of one cell value. -/
def wrapIter : Nat → Nat → Nat
  | 0, x => x
  | k + 1, x => wrapIter k ((x + 1) % 65536)

/-- Iterating the wrapping increment adds modulo 2^16. -/
theorem wrapIter_eq (k : Nat) : ∀ x : Nat, x < 65536 → wrapIter k x = (x + k) % 65536 := by
  induction k with
  | zero => intro x hx; simpa [wrapIter] using (Nat.mod_eq_of_lt hx).symm
  | succ k ih =>
      intro x hx
      rw [wrapIter, ih _ (Nat.mod_lt _ (by omega)), Nat.mod_add_mod]
      congr 1
      omega

/-- Value of one cell after folding a channel's pair updates: the cell
is incremented (wrapping) once per combination that maps to it and has
both components in the channel. -/
theorem add_channel_cell_fold (users chUsers : List Member) (cell : Nat × Nat) :
    ∀ (l : List MPair) (m : DistMatrix),
      (l.foldl (fun acc p =>
        if p.1 ∈ chUsers ∧ p.2 ∈ chUsers then
          matrixIncr acc (get_sparse_matrix_index users p.1 p.2)
        else acc) m) cell =
      wrapIter (l.countP (fun p =>
        decide (get_sparse_matrix_index users p.1 p.2 = cell ∧
          p.1 ∈ chUsers ∧ p.2 ∈ chUsers))) (m cell) := by
  intro l
  induction l with
  | nil => intro m; simp [wrapIter]
  | cons p ps ih =>
      intro m
      rw [List.foldl_cons, List.countP_cons, ih]
      by_cases hch : p.1 ∈ chUsers ∧ p.2 ∈ chUsers
      · by_cases hcell : get_sparse_matrix_index users p.1 p.2 = cell
        · have hstep : (if p.1 ∈ chUsers ∧ p.2 ∈ chUsers then
              matrixIncr m (get_sparse_matrix_index users p.1 p.2) else m) cell =
              (m cell + 1) % 65536 := by
            rw [if_pos hch]
            unfold matrixIncr
            rw [if_pos hcell.symm, hcell]
          rw [hstep]
          have hcount : (if decide (get_sparse_matrix_index users p.1 p.2 = cell ∧
              p.1 ∈ chUsers ∧ p.2 ∈ chUsers) = true then 1 else 0) = 1 := by
            simp [hcell, hch.1, hch.2]
          rw [hcount]
          have : ∀ j x, wrapIter j ((x + 1) % 65536) = wrapIter (j + 1) x := by
            intro j x
            rw [wrapIter]
          rw [this]
        · have hstep : (if p.1 ∈ chUsers ∧ p.2 ∈ chUsers then
              matrixIncr m (get_sparse_matrix_index users p.1 p.2) else m) cell = m cell := by
            rw [if_pos hch]
            unfold matrixIncr
            rw [if_neg (fun h => hcell h.symm)]
          rw [hstep]
          have hcount : (if decide (get_sparse_matrix_index users p.1 p.2 = cell ∧
              p.1 ∈ chUsers ∧ p.2 ∈ chUsers) = true then 1 else 0) = 0 := by
            simp [hcell]
          rw [hcount, Nat.add_zero]
      · have hstep : (if p.1 ∈ chUsers ∧ p.2 ∈ chUsers then
            matrixIncr m (get_sparse_matrix_index users p.1 p.2) else m) cell = m cell := by
          rw [if_neg hch]
        rw [hstep]
        have hcount : (if decide (get_sparse_matrix_index users p.1 p.2 = cell ∧
            p.1 ∈ chUsers ∧ p.2 ∈ chUsers) = true then 1 else 0) = 0 := by
          simp only [decide_eq_true_eq]
          rw [if_neg (fun h => hch h.2)]
        rw [hcount, Nat.add_zero]

end MaxDistanceGeneratorAlgorithm

namespace MaxDistanceGeneratorAlgorithm

/-- One channel's contribution to the cell of a fixed unordered pair of
distinct roster members: an increment exactly when both are channel
members. -/
theorem add_channel_cell (users chUsers : List Member) (a b : Member)
    (hnd : users.Nodup) (ha : a ∈ users) (hb : b ∈ users) (hab : a ≠ b)
    (m : DistMatrix) :
    add_channel users chUsers m (get_sparse_matrix_index users a b) =
      if a ∈ chUsers ∧ b ∈ chUsers then
        (m (get_sparse_matrix_index users a b) + 1) % 65536
      else m (get_sparse_matrix_index users a b) := by
  unfold add_channel
  rw [add_channel_cell_fold]
  have hcount : (combinations2 users).countP (fun p =>
      decide (get_sparse_matrix_index users p.1 p.2 = get_sparse_matrix_index users a b ∧
        p.1 ∈ chUsers ∧ p.2 ∈ chUsers)) =
      if a ∈ chUsers ∧ b ∈ chUsers then 1 else 0 := by
    by_cases hch : a ∈ chUsers ∧ b ∈ chUsers
    · rw [if_pos hch]
      have hcongr : ∀ p ∈ combinations2 users,
          decide (get_sparse_matrix_index users p.1 p.2 = get_sparse_matrix_index users a b ∧
            p.1 ∈ chUsers ∧ p.2 ∈ chUsers) = true ↔
          decide (p = (a, b) ∨ p = (b, a)) = true := by
        intro p hp
        have hpmem := mem_combinations2 users p hp
        have hpne := combinations2_ne users hnd p hp
        simp only [decide_eq_true_eq]
        constructor
        · rintro ⟨hidx, _, _⟩
          rcases get_sparse_matrix_index_inj users p.1 p.2 a b hnd hpmem.1 hpmem.2
              ha hb hidx with h | h
          · exact Or.inl (Prod.ext h.1 h.2)
          · exact Or.inr (Prod.ext h.1 h.2)
        · rintro (h | h)
          · subst h
            exact ⟨rfl, hch.1, hch.2⟩
          · subst h
            exact ⟨get_sparse_matrix_index_symm users b a, hch.2, hch.1⟩
      rw [List.countP_congr hcongr]
      exact countP_pair_combinations2 a b users hnd ha hb hab
    · rw [if_neg hch]
      apply List.countP_eq_zero.mpr
      intro p hp hpp
      have hpmem := mem_combinations2 users p hp
      obtain ⟨hidx, hp1, hp2⟩ := by simpa using hpp
      rcases get_sparse_matrix_index_inj users p.1 p.2 a b hnd hpmem.1 hpmem.2
          ha hb hidx with h | h
      · exact hch ⟨h.1 ▸ hp1, h.2 ▸ hp2⟩
      · exact hch ⟨h.2 ▸ hp2, h.1 ▸ hp1⟩
  rw [hcount]
  by_cases hch : a ∈ chUsers ∧ b ∈ chUsers
  · rw [if_pos hch, if_pos hch]
    rfl
  · rw [if_neg hch, if_neg hch]
    rfl

/-- Value of a pair's cell after the whole channel scan: the initial
value plus the number of scanned channels containing both members,
reduced modulo 2^16. -/
theorem build_channels_cell (svc : GenericMessagingApiWrapper) (users : List Member)
    (a b : Member) (hnd : users.Nodup) (ha : a ∈ users) (hb : b ∈ users) (hab : a ≠ b) :
    ∀ (chs : List String) (m : DistMatrix) (M : DistMatrix),
      m (get_sparse_matrix_index users a b) < 65536 →
      build_channels svc users chs m = .ok M →
      M (get_sparse_matrix_index users a b) =
        (m (get_sparse_matrix_index users a b) + spec_coPresenceCount svc chs a b) % 65536 := by
  intro chs
  induction chs with
  | nil =>
      intro m M hlt hrun
      rw [build_channels] at hrun
      cases hrun
      unfold spec_coPresenceCount
      simp [Nat.mod_eq_of_lt hlt]
  | cons ch rest ih =>
      intro m M hlt hrun
      rw [build_channels] at hrun
      cases hm : svc.get_users_from_channel ch with
      | error e => rw [hm] at hrun; cases hrun
      | ok l =>
          rw [hm] at hrun
          have hcell := add_channel_cell users (sortList l) a b hnd ha hb hab m
          have hlt' : add_channel users (sortList l) m
              (get_sparse_matrix_index users a b) < 65536 := by
            rw [hcell]
            split
            · exact Nat.mod_lt _ (by omega)
            · exact hlt
          have hrec := ih (add_channel users (sortList l) m) M hlt' hrun
          rw [hrec, hcell]
          unfold spec_coPresenceCount
          rw [List.countP_cons, hm]
          have hmem : (a ∈ sortList l ∧ b ∈ sortList l) ↔ (a ∈ l ∧ b ∈ l) := by
            unfold sortList
            rw [List.mem_insertionSort, List.mem_insertionSort]
          by_cases hch : a ∈ l ∧ b ∈ l
          · rw [if_pos (hmem.mpr hch)]
            simp only [hch, decide_eq_true_eq, and_self, if_pos]
            rw [Nat.mod_add_mod]
            congr 1
            omega
          · rw [if_neg (fun h => hch (hmem.mp h))]
            simp only [decide_eq_true_eq]
            rw [if_neg hch, Nat.add_zero]

end MaxDistanceGeneratorAlgorithm

namespace MaxDistanceGeneratorAlgorithm

/-- The built distance matrix holds, at the canonical cell of a pair of
distinct roster members, the number of listed channels containing both,
modulo 2^16 (uint16 storage). -/
theorem build_matrix_cell (svc : GenericMessagingApiWrapper) (users : List Member)
    (a b : Member) (chs : List String) (M : DistMatrix) (hnd : users.Nodup)
    (ha : a ∈ users) (hb : b ∈ users) (hab : a ≠ b)
    (hch : svc.get_public_channel_ids = .ok chs)
    (hM : build_distance_matrix svc users = .ok M) :
    M (get_sparse_matrix_index users a b) = spec_coPresenceCount svc chs a b % 65536 := by
  unfold build_distance_matrix at hM
  rw [hch] at hM
  have h := build_channels_cell svc users a b hnd ha hb hab chs (fun _ => 0) M
    (by show (0 : Nat) < 65536; omega) hM
  simpa using h

/-- The distance-dictionary builder never reads a diagonal cell: its
output only depends on off-diagonal matrix entries. -/
theorem dict_congr_offdiag (users working : List Member) (current : Member)
    (m m' : DistMatrix) (hnd : users.Nodup) (hcu : current ∈ users)
    (hagree : ∀ i j : Nat, i ≠ j → m (i, j) = m' (i, j)) :
    build_user_distance_dict users working current m =
      build_user_distance_dict users working current m' := by
  have hagree' : ∀ c : Nat × Nat, c.1 ≠ c.2 → m c = m' c := by
    intro c hc
    have h := hagree c.1 c.2 hc
    simpa using h
  unfold build_user_distance_dict
  congr 1
  have hfold : ∀ (l : List Member), (∀ t ∈ l, t ∈ users) →
      ∀ d : List (Nat × List Member),
        l.foldl (dict_insert users working current m) d =
          l.foldl (dict_insert users working current m') d := by
    intro l
    induction l with
    | nil => intro _ d; rfl
    | cons t ts ih =>
        intro hsub d
        rw [List.foldl_cons, List.foldl_cons]
        have hstep : dict_insert users working current m d t =
            dict_insert users working current m' d t := by
          unfold dict_insert
          split
          · rfl
          · next hcond =>
              push_neg at hcond
              have hdiag := get_sparse_matrix_index_offdiag users current t hnd hcu
                (hsub t (by simp)) (fun h => hcond.2 h.symm)
              rw [hagree' _ hdiag]
        rw [hstep]
        exact ih (fun x hx => hsub x (List.mem_cons_of_mem _ hx)) _
  exact hfold users (fun t ht => ht) []

/-- The channel scan succeeds whenever every member listing
succeeds. -/
theorem build_channels_total (svc : GenericMessagingApiWrapper) (users : List Member) :
    ∀ (chs : List String) (m : DistMatrix),
      (∀ ch ∈ chs, ∃ l, svc.get_users_from_channel ch = .ok l) →
      ∃ M, build_channels svc users chs m = .ok M := by
  intro chs
  induction chs with
  | nil => intro m _; exact ⟨m, rfl⟩
  | cons ch rest ih =>
      intro m hok
      obtain ⟨l, hl⟩ := hok ch (by simp)
      obtain ⟨M, hM⟩ := ih (add_channel users (sortList l) m)
        (fun c hc => hok c (List.mem_cons_of_mem _ hc))
      refine ⟨M, ?_⟩
      rw [build_channels, hl]
      exact hM

end MaxDistanceGeneratorAlgorithm

/-- Service double exposing 65536 channels, each containing both A and
B. -/
def manyChannelsService : GenericMessagingApiWrapper :=
  ⟨.ok (List.replicate 65536 "C"), fun _ => .ok ["A", "B"], fun _ _ => .ok false⟩

/-- C6, counterexample.  The distance cell does not equal the number of
channels containing both members: the sparse matrix stores uint16
counters, so with 65536 channels all containing both A and B the cell
wraps around to 0 while the channel count is 65536. -/
theorem c6_uint16_wraparound :
    ∃ M : MaxDistanceGeneratorAlgorithm.DistMatrix,
      MaxDistanceGeneratorAlgorithm.build_distance_matrix manyChannelsService ["A", "B"] =
        .ok M ∧
      spec_coPresenceCount manyChannelsService (List.replicate 65536 "C") "A" "B" = 65536 ∧
      M (MaxDistanceGeneratorAlgorithm.get_sparse_matrix_index ["A", "B"] "A" "B") = 0 ∧
      (65536 : Nat) ≠ 0 := by
  have hcount : spec_coPresenceCount manyChannelsService
      (List.replicate 65536 "C") "A" "B" = 65536 := by
    unfold spec_coPresenceCount
    rw [List.countP_replicate]
    norm_num [manyChannelsService]
  obtain ⟨M, hM⟩ := MaxDistanceGeneratorAlgorithm.build_channels_total manyChannelsService
    ["A", "B"] (List.replicate 65536 "C") (fun _ => 0)
    (fun ch _ => ⟨["A", "B"], rfl⟩)
  have hbuild : MaxDistanceGeneratorAlgorithm.build_distance_matrix manyChannelsService
      ["A", "B"] = .ok M := by
    unfold MaxDistanceGeneratorAlgorithm.build_distance_matrix
    exact hM
  have hval := MaxDistanceGeneratorAlgorithm.build_matrix_cell manyChannelsService
    ["A", "B"] "A" "B" (List.replicate 65536 "C") M (by decide) (by decide) (by decide)
    (by decide) rfl hbuild
  rw [hcount] at hval
  norm_num at hval
  exact ⟨M, hbuild, hcount, hval, by norm_num⟩

/-- C6, amended.  For every sorted roster and channel snapshot: the
distance read for an unordered pair of distinct roster members is the
same whichever argument order is used (the index function canonicalizes
to the lexicographically smaller member's row); it equals the number of
channels whose member list contains both members reduced modulo 2^16
(the sparse matrix stores uint16 counters); and the diagonal is never
read: the distance-dictionary builder's output is unchanged by
arbitrary modification of the diagonal cells. -/
theorem c6_distance_symmetry_value_mod_uint16 :
    (∀ (users : List Member) (a b : Member),
        MaxDistanceGeneratorAlgorithm.get_sparse_matrix_index users a b =
          MaxDistanceGeneratorAlgorithm.get_sparse_matrix_index users b a) ∧
    (∀ (svc : GenericMessagingApiWrapper) (users : List Member) (a b : Member)
        (chs : List String) (M : MaxDistanceGeneratorAlgorithm.DistMatrix),
        users.Nodup → a ∈ users → b ∈ users → a ≠ b →
        svc.get_public_channel_ids = .ok chs →
        MaxDistanceGeneratorAlgorithm.build_distance_matrix svc users = .ok M →
        M (MaxDistanceGeneratorAlgorithm.get_sparse_matrix_index users a b) =
          spec_coPresenceCount svc chs a b % 65536) ∧
    (∀ (users working : List Member) (current : Member)
        (m m' : MaxDistanceGeneratorAlgorithm.DistMatrix),
        users.Nodup → current ∈ users →
        (∀ i j : Nat, i ≠ j → m (i, j) = m' (i, j)) →
        MaxDistanceGeneratorAlgorithm.build_user_distance_dict users working current m =
          MaxDistanceGeneratorAlgorithm.build_user_distance_dict users working current m') :=
  ⟨MaxDistanceGeneratorAlgorithm.get_sparse_matrix_index_symm,
    fun svc users a b chs M hnd ha hb hab hch hM =>
      MaxDistanceGeneratorAlgorithm.build_matrix_cell svc users a b chs M hnd ha hb hab
        hch hM,
    fun users working current m m' hnd hcu hag =>
      MaxDistanceGeneratorAlgorithm.dict_congr_offdiag users working current m m' hnd
        hcu hag⟩

/-- Service double exposing a single channel containing both A and B. -/
def oneChannelService : GenericMessagingApiWrapper :=
  ⟨.ok ["C1"], fun _ => .ok ["A", "B"], fun _ _ => .ok false⟩

/-- C6, witness.  The value conjunct applied to a one-channel snapshot:
the built cell of the pair (A, B) equals the co-presence count modulo
2^16. -/
theorem c6_witness :
    MaxDistanceGeneratorAlgorithm.add_channel ["A", "B"] ["A", "B"] (fun _ => 0)
        (MaxDistanceGeneratorAlgorithm.get_sparse_matrix_index ["A", "B"] "A" "B") =
      spec_coPresenceCount oneChannelService ["C1"] "A" "B" % 65536 :=
  c6_distance_symmetry_value_mod_uint16.2.1 oneChannelService ["A", "B"] "A" "B" ["C1"]
    (MaxDistanceGeneratorAlgorithm.add_channel ["A", "B"] ["A", "B"] (fun _ => 0))
    (by decide) (by decide) (by decide) (by decide) rfl rfl
